import Mathlib

/-
  Verification development for the cc-insights aggregation engine.

  The Go source is shallowly embedded:
  * instants (Go time.Time) are modelled as Int = nanoseconds since the Unix
    epoch; Go Before / After are < / >; the Go zero time (0001-01-01T00:00:00Z)
    is the constant goZeroTime, and IsZero is equality with it;
  * Go maps are modelled as association lists (List (K x V)); map iteration
    order is the list order — all properties proved about maps are
    order-insensitive (per-key lookups and commutative sums);
  * a streaming JSON decoder is modelled at two levels: a pass that runs to
    completion is a fold over the finite list of its per-record outcomes,
    where none is an unmarshal failure on a well-formed value (which Go
    returns but advances past); the failure path of malformed JSON is
    modelled separately by the Decoder state machine, whose sticky error
    (dec.err) makes the continue-on-error decode loops retry the same error
    forever; json.RawMessage plus a later json.Unmarshal into
    AssistantMessage is modelled as an Option AssistantMessage field;
  * fixed-size Go arrays ([7]..., [24]...) are modelled as lists of that length;
  * goroutine interleavings are modelled as the possible sequential orders of
    the commutative per-record (or per-batch-merge) critical sections.
-/

namespace CCInsights

/-! ## Calendar model (Go time library internals used by the source) -/

/-- Civil-date to day-count conversion (days since 1970-01-01), the standard
days-from-civil algorithm; Lean Int division and mod are Euclidean, which for
the positive divisors used here coincides with floor division. -/
def daysFromCivil (y : Int) (m d : Int) : Int :=
  let y2 : Int := if m ≤ 2 then y - 1 else y
  let era : Int := y2 / 400
  let yoe : Int := y2 - era * 400
  let mp : Int := (m + 9) % 12
  let doy : Int := (153 * mp + 2) / 5 + d - 1
  let doe : Int := yoe * 365 + yoe / 4 - yoe / 100 + doy
  era * 146097 + doe - 719468

/-- Nanoseconds of the midnight (UTC) instant of a civil date. -/
def dateInstant (y m d : Int) : Int :=
  daysFromCivil y m d * 86400 * 1000000000

/-- The Go zero time.Time, 0001-01-01T00:00:00 UTC, as an instant. -/
def goZeroTime : Int := dateInstant 1 1 1

/-- Go time.Time.Weekday numbering: 0 = Sunday ... 6 = Saturday.
1970-01-01 (day 0) was a Thursday (Go weekday 4). -/
def goWeekdayOfDays (days : Int) : Nat := ((days + 4) % 7).toNat

/-- A parsed timestamp: the civil fields exactly as written in the record
(Go keeps the fixed offset of an RFC3339 timestamp, so Hour, Weekday and
Format all read these literal fields). -/
structure DateTime where
  year : Int
  month : Nat
  day : Nat
  hour : Nat
  minute : Nat
  second : Nat
  nanos : Nat
  offsetMin : Int
  deriving Repr, DecidableEq

/-- Go weekday (0 = Sunday) of the civil date of a parsed timestamp. -/
def DateTime.goWeekday (dt : DateTime) : Nat :=
  goWeekdayOfDays (daysFromCivil dt.year dt.month dt.day)

/-- Absolute instant (nanoseconds since the Unix epoch) of a parsed
timestamp, shifting out its zone offset. -/
def DateTime.toInstant (dt : DateTime) : Int :=
  (daysFromCivil dt.year dt.month dt.day * 86400
    + dt.hour * 3600 + dt.minute * 60 + dt.second
    - dt.offsetMin * 60) * 1000000000 + dt.nanos

/-- Leap-year rule of the proleptic Gregorian calendar. -/
def isLeapYear (y : Int) : Bool :=
  (y % 4 = 0 && y % 100 ≠ 0) || y % 400 = 0

/-- Number of days of a month, honouring leap years. -/
def daysInMonth (y : Int) (m : Nat) : Nat :=
  if m = 2 then (if isLeapYear y then 29 else 28)
  else if m = 4 ∨ m = 6 ∨ m = 9 ∨ m = 11 then 30
  else 31

/-! ## Timestamp parsing (Go time.Parse with the layouts used by the source) -/

/-- Numeric value of a decimal digit character, or none. -/
def digitVal (c : Char) : Option Nat :=
  if c.isDigit then some (c.toNat - 48) else none

/-- Value of a two-digit decimal field. -/
def twoDigits (a b : Char) : Option Nat := do
  let x ← digitVal a
  let y ← digitVal b
  pure (x * 10 + y)

/-- Value of a four-digit decimal field. -/
def fourDigits (a b c d : Char) : Option Nat := do
  let x ← twoDigits a b
  let y ← twoDigits c d
  pure (x * 100 + y)

/-- Fractional-second digits to nanoseconds: the first nine digits are
significant, shorter fractions are scaled up. -/
def fracToNanos (ds : List Char) : Option Nat := do
  if ds = [] then none else
  let vals ← ds.mapM digitVal
  pure ((vals.take 9).foldl (fun a v => a * 10 + v) 0
        * 10 ^ (9 - min (vals.length) 9))

/-- Zone suffix of an RFC3339 timestamp: Z, or a signed hh:mm offset in
minutes; none when malformed or when trailing garbage follows. -/
def parseZone (cs : List Char) : Option Int :=
  match cs with
  | ['Z'] => some 0
  | ['+', h1, h2, ':', m1, m2] => do
      let h ← twoDigits h1 h2
      let m ← twoDigits m1 m2
      if h ≤ 23 ∧ m ≤ 59 then pure (h * 60 + m) else none
  | ['-', h1, h2, ':', m1, m2] => do
      let h ← twoDigits h1 h2
      let m ← twoDigits m1 m2
      if h ≤ 23 ∧ m ≤ 59 then pure (-(h * 60 + m : Int)) else none
  | _ => none

/-- Optional fractional part and zone of an RFC3339Nano timestamp tail. -/
def parseFracAndZone (cs : List Char) : Option (Nat × Int) :=
  match cs with
  | '.' :: rest => do
      let ds := rest.takeWhile Char.isDigit
      let n ← fracToNanos ds
      let off ← parseZone (rest.dropWhile Char.isDigit)
      pure (n, off)
  | _ => do
      let off ← parseZone cs
      pure (0, off)

/-- Go time.Parse with layout RFC3339Nano, on the character list. -/
def parseRFC3339Chars (cs : List Char) : Option DateTime :=
  match cs with
  | y1 :: y2 :: y3 :: y4 :: '-' :: m1 :: m2 :: '-' :: d1 :: d2 :: 'T'
      :: h1 :: h2 :: ':' :: mi1 :: mi2 :: ':' :: s1 :: s2 :: rest => do
      let y ← fourDigits y1 y2 y3 y4
      let mo ← twoDigits m1 m2
      let d ← twoDigits d1 d2
      let h ← twoDigits h1 h2
      let mi ← twoDigits mi1 mi2
      let s ← twoDigits s1 s2
      let (nanos, off) ← parseFracAndZone rest
      if 1 ≤ mo ∧ mo ≤ 12 ∧ 1 ≤ d ∧ d ≤ daysInMonth y mo
          ∧ h ≤ 23 ∧ mi ≤ 59 ∧ s ≤ 59 then
        pure { year := y, month := mo, day := d, hour := h, minute := mi,
               second := s, nanos := nanos, offsetMin := off }
      else none
  | _ => none

/-- Go time.Parse with layout RFC3339Nano (used on ProjectRecord.Timestamp). -/
def parseRFC3339Nano (s : String) : Option DateTime :=
  parseRFC3339Chars s.toList

/-- Go time.Parse with layout 2006-01-02: a bare calendar date, yielding the
midnight-UTC instant (used on daily-stats date keys). -/
def parseDateKey (s : String) : Option Int :=
  match s.toList with
  | [y1, y2, y3, y4, '-', m1, m2, '-', d1, d2] => do
      let y ← fourDigits y1 y2 y3 y4
      let mo ← twoDigits m1 m2
      let d ← twoDigits d1 d2
      if 1 ≤ mo ∧ mo ≤ 12 ∧ 1 ≤ d ∧ d ≤ daysInMonth y mo then
        pure (dateInstant y mo d)
      else none
  | _ => none

/-- Decimal digits of a Nat, zero-padded to two places (Go format verb 02d
and layout fields 01, 02, 15). -/
def pad2 (n : Nat) : String :=
  if n < 10 then String.mk ['0', Char.ofNat (48 + n)]
  else (Nat.repr n)

/-- Decimal digits of a year, zero-padded to four places (layout field 2006). -/
def pad4 (n : Nat) : String :=
  if n < 10 then String.mk ['0', '0', '0', Char.ofNat (48 + n)]
  else if n < 100 then String.mk ['0', '0'] ++ Nat.repr n
  else if n < 1000 then String.mk ['0'] ++ Nat.repr n
  else Nat.repr n

/-- Go Format with layout 2006-01-02 on a parsed timestamp. -/
def DateTime.dateKey (dt : DateTime) : String :=
  pad4 dt.year.toNat ++ "-" ++ pad2 dt.month ++ "-" ++ pad2 dt.day

/-! ## TimeFilter (src/cmd/dashboard/filter.go) -/

/-- TimeFilter: optional start and end instants; nil pointers are none
(end is a Lean keyword, hence the field name end_). -/
structure TimeFilter where
  start : Option Int
  end_ : Option Int
  deriving Repr, DecidableEq

/-- TimeFilter.Contains from filter.go lines 82-96: true when both bounds are
nil; false when a present start exceeds t or a present end precedes t. -/
def TimeFilter.containsT (tf : TimeFilter) (t : Int) : Bool :=
  if tf.start = none ∧ tf.end_ = none then true
  else if tf.start.any (fun s => decide (t < s)) then false
  else if tf.end_.any (fun e => decide (e < t)) then false
  else true

/-! ## Association-list model of Go maps -/

/-- Lookup of a counter map, defaulting to 0 (a Go map read of a missing key). -/
def lookupD (m : List (String × Nat)) (k : String) : Nat :=
  match m with
  | [] => 0
  | (k2, v) :: rest => if k2 = k then v else lookupD rest k

/-- Increment of a counter map by d (a Go m[k] += d, inserting on absence). -/
def bump (m : List (String × Nat)) (k : String) (d : Nat) : List (String × Nat) :=
  match m with
  | [] => [(k, d)]
  | (k2, v) :: rest => if k2 = k then (k2, v + d) :: rest else (k2, v) :: bump rest k d

/-! ## History records (src/cmd/dashboard, history.jsonl) -/

/-- HistoryRecord from part_005: one history.jsonl line (the pastedContents
map is never read by the aggregation code and is omitted). -/
structure HistoryRecord where
  display : String
  timestamp : Int
  project : String
  deriving Repr, DecidableEq

/-- Instant of a history record: time.Unix(record.Timestamp/1000, 0); Go
integer division truncates toward zero, hence Int.div. -/
def historyInstant (r : HistoryRecord) : Int :=
  Int.tdiv r.timestamp 1000 * 1000000000

/-- Hour of the day of an instant given in seconds (time.Time.Hour; the
process timezone is modelled as UTC). -/
def hourOfSeconds (sec : Int) : Nat :=
  ((sec % 86400) / 3600).toNat

/-- First whitespace-separated field of a string (strings.Fields()[0]). -/
def firstField (s : String) : Option String :=
  ((s.split Char.isWhitespace).filter (fun w => w ≠ "")).head?

/-- Worker-local accumulator of ParseHistoryConcurrent: slash-command counts
and the per-hour ("00".."23") counts. -/
structure CmdHourAcc where
  cmdCounts : List (String × Nat)
  hourlyCounts : List (String × Nat)
  deriving Repr, DecidableEq

/-- Per-record body of the ParseHistoryConcurrent worker loop (concurrent.go
lines 91-104): count the leading slash command, then the record's hour. -/
def historyStep (acc : CmdHourAcc) (r : HistoryRecord) : CmdHourAcc :=
  let acc1 :=
    if r.display.startsWith "/" then
      match firstField r.display with
      | some w => { acc with cmdCounts := bump acc.cmdCounts w 1 }
      | none => acc
    else acc
  let hourKey := pad2 (hourOfSeconds (Int.tdiv r.timestamp 1000))
  { acc1 with hourlyCounts := bump acc1.hourlyCounts hourKey 1 }

/-- Sequential processing of a record list into an accumulator. -/
def processHistoryRecords (acc : CmdHourAcc) (rs : List HistoryRecord) : CmdHourAcc :=
  rs.foldl historyStep acc

/-- Producer loop of ParseHistoryConcurrent (concurrent.go lines 50-73) on
a pass that completes: each outcome is a decoded record or an advancing
unmarshal failure (none), which is skipped; every decoded record is
filtered by the TimeFilter and survivors are batched in order. Malformed
JSON instead poisons the decoder (dec.err) and the loop never reaches EOF —
that failure path is modelled by Decoder and parseProjectFileLoop. -/
def producerRecords (tf : TimeFilter) (lines : List (Option HistoryRecord)) : List HistoryRecord :=
  lines.foldl
    (fun acc l =>
      match l with
      | none => acc
      | some r => if tf.containsT (historyInstant r) then acc ++ [r] else acc)
    []

/-- Merge of a worker-local counter map into the shared map under the mutex
(concurrent.go lines 108-115): shared[k] += local[k] for every local entry. -/
def mergeCounts (shared localM : List (String × Nat)) : List (String × Nat) :=
  localM.foldl (fun acc kv => bump acc kv.1 kv.2) shared

/-- Merge of a worker-local CmdHourAcc into the shared one. -/
def mergeAcc (shared localA : CmdHourAcc) : CmdHourAcc :=
  { cmdCounts := mergeCounts shared.cmdCounts localA.cmdCounts,
    hourlyCounts := mergeCounts shared.hourlyCounts localA.hourlyCounts }

/-! ## Project transcript records (projects/<id>/*.jsonl) -/

/-- AssistantMessage from part_005: only Model and the two token counts are
read by the aggregation code; the other fields are omitted. -/
structure AssistantMessage where
  model : String
  inputTokens : Nat
  outputTokens : Nat
  deriving Repr, DecidableEq

/-- ProjectRecord from part_005: one projects jsonl line. Only the fields the
aggregation reads are kept; Message is a json.RawMessage whose later
json.Unmarshal into AssistantMessage is modelled as an Option (none when the
unmarshal fails). type is a Lean keyword, hence type_. -/
structure ProjectRecord where
  cwd : String
  sessionId : String
  type_ : String
  message : Option AssistantMessage
  timestamp : String
  deriving Repr, DecidableEq

/-- ProjectStatItem from part_005. -/
structure ProjectStatItem where
  project : String
  sessionCount : Nat
  messageCount : Nat
  deriving Repr, DecidableEq

/-- ModelUsageItem from part_005. -/
structure ModelUsageItem where
  model : String
  count : Nat
  tokens : Nat
  deriving Repr, DecidableEq

/-- ProjectAggregate from part_005, the map-shaped accumulators only (the
finalized sorted lists and the derived work-hours statistics are not needed
by any claim; weekday and hourly arrays keep just the message counts, their
constant index and label fields dropped). -/
structure ProjectAggregate where
  projectStats : List (String × ProjectStatItem)
  weekdayData : List Nat
  dailyActivity : List (String × Nat)
  hourlyCounts : List Nat
  modelUsage : List (String × ModelUsageItem)
  deriving Repr, DecidableEq

/-- The fresh aggregate built at the top of ParseProjectsConcurrentOnce. -/
def initAggregate : ProjectAggregate :=
  { projectStats := [], weekdayData := List.replicate 7 0,
    dailyActivity := [], hourlyCounts := List.replicate 24 0,
    modelUsage := [] }

/-- Ensure-then-increment of a project entry (part_005 lines 1255-1260):
a missing key is initialised with zero counts before MessageCount++. -/
def bumpProject (m : List (String × ProjectStatItem)) (p : String) :
    List (String × ProjectStatItem) :=
  match m with
  | [] => [(p, { project := p, sessionCount := 0, messageCount := 1 })]
  | (k, it) :: rest =>
      if k = p then (k, { it with messageCount := it.messageCount + 1 }) :: rest
      else (k, it) :: bumpProject rest p

/-- Ensure-then-increment of a model entry (part_005 lines 1279-1285):
Count++ and Tokens += inputTokens + outputTokens. -/
def bumpModel (m : List (String × ModelUsageItem)) (name : String) (tok : Nat) :
    List (String × ModelUsageItem) :=
  match m with
  | [] => [(name, { model := name, count := 1, tokens := tok })]
  | (k, it) :: rest =>
      if k = name then
        (k, { it with count := it.count + 1, tokens := it.tokens + tok }) :: rest
      else (k, it) :: bumpModel rest name tok

/-- Mutex-guarded body of parseProjectFileAggregate (part_005 lines
1248-1289): project, weekday, daily, hourly and model statistics of one
counted assistant record. -/
def applyRecord (agg : ProjectAggregate) (r : ProjectRecord) : ProjectAggregate :=
  match parseRFC3339Nano r.timestamp with
  | none => agg
  | some ts =>
      let projectName := if r.cwd = "" then "Unknown" else r.cwd
      let wd := (ts.goWeekday + 6) % 7
      let agg1 := { agg with
        projectStats := bumpProject agg.projectStats projectName,
        weekdayData := agg.weekdayData.set wd (agg.weekdayData.getD wd 0 + 1),
        dailyActivity := bump agg.dailyActivity ts.dateKey 1,
        hourlyCounts := agg.hourlyCounts.set ts.hour (agg.hourlyCounts.getD ts.hour 0 + 1) }
      match r.message with
      | some msg =>
          if msg.model ≠ "" then
            { agg1 with modelUsage := bumpModel agg1.modelUsage msg.model (msg.inputTokens + msg.outputTokens) }
          else agg1
      | none => agg1

/-- One iteration of the parseProjectFileAggregate decode loop (part_005
lines 1222-1245) on an outcome that advances the decoder: skip unmarshal
failures (none), unparseable timestamps, records outside the filter, and
non-assistant records; count the rest. A malformed-JSON outcome does not
advance the decoder — that failure path is modelled by Decoder and
parseProjectFileLoop. -/
def projectLineStep (tf : TimeFilter) (agg : ProjectAggregate)
    (line : Option ProjectRecord) : ProjectAggregate :=
  match line with
  | none => agg
  | some r =>
      match parseRFC3339Nano r.timestamp with
      | none => agg
      | some ts =>
          if ¬ tf.containsT ts.toInstant then agg
          else if r.type_ ≠ "assistant" then agg
          else applyRecord agg r

/-- parseProjectFileAggregate (part_005 lines 1214-1291) over the outcome
stream of one file on a pass that completes. -/
def parseProjectFileAggregate (tf : TimeFilter) (lines : List (Option ProjectRecord))
    (agg : ProjectAggregate) : ProjectAggregate :=
  lines.foldl (projectLineStep tf) agg

/-- One decode-attempt boundary of a JSONL stream as encoding/json sees it:
a well-formed value that decodes into a record; a well-formed value of the
wrong shape, whose unmarshal error is returned while the scanner advances
past the value; or malformed JSON, whose syntax error is stored into the
decoder's err field without advancing the input. -/
inductive DecodeEvent where
  | ok (r : ProjectRecord)
  | typeErr
  | malformed
  deriving Repr, DecidableEq

/-- State of a json.Decoder: the remaining input and the sticky error flag
(dec.err); once set, every later Decode call returns the same non-EOF
error. -/
structure Decoder where
  events : List DecodeEvent
  stickyErr : Bool
  deriving Repr, DecidableEq

/-- Outcome of one Decode call. -/
inductive DecodeResult where
  | eof
  | record (r : ProjectRecord)
  | failure
  deriving Repr, DecidableEq

/-- Decoder.Decode: a stored error repeats forever; EOF at the end of the
input; otherwise a record or an advancing unmarshal failure; malformed JSON
stores the sticky error and does not advance. -/
def Decoder.decode : Decoder → DecodeResult × Decoder
  | { events := es, stickyErr := true } =>
      (DecodeResult.failure, { events := es, stickyErr := true })
  | { events := [], stickyErr := false } =>
      (DecodeResult.eof, { events := [], stickyErr := false })
  | { events := DecodeEvent.ok r :: rest, stickyErr := false } =>
      (DecodeResult.record r, { events := rest, stickyErr := false })
  | { events := DecodeEvent.typeErr :: rest, stickyErr := false } =>
      (DecodeResult.failure, { events := rest, stickyErr := false })
  | { events := DecodeEvent.malformed :: rest, stickyErr := false } =>
      (DecodeResult.failure, { events := DecodeEvent.malformed :: rest, stickyErr := true })

/-- The decode loop of parseProjectFileAggregate (part_005 lines 1222-1245)
run against the decoder state machine, with an explicit step budget: some
aggregate when the loop hits EOF and breaks within the budget, none when it
is still running after that many iterations (an error outcome is followed
by continue, exactly as in the source). -/
def parseProjectFileLoop (tf : TimeFilter) :
    Nat → Decoder → ProjectAggregate → Option ProjectAggregate
  | 0, _, _ => none
  | Nat.succ fuel, dec, agg =>
      match dec.decode with
      | (DecodeResult.eof, _) => some agg
      | (DecodeResult.failure, dec2) => parseProjectFileLoop tf fuel dec2 agg
      | (DecodeResult.record r, dec2) =>
          parseProjectFileLoop tf fuel dec2 (projectLineStep tf agg (some r))

/-- ParseProjectsConcurrentOnce (part_005 lines 1144-1210) in one sequential
order of its per-record critical sections: the files processed one after the
other into the fresh aggregate (other interleavings are permutations of the
line stream; claim C8 relates them). -/
def parseProjectsSeq (tf : TimeFilter) (files : List (List (Option ProjectRecord))) :
    ProjectAggregate :=
  files.foldl (fun agg f => parseProjectFileAggregate tf f agg) initAggregate

/-- A record is counted by parseProjectFileAggregate iff its timestamp
parses, the filter contains it and it is an assistant record. -/
def countedRecord (tf : TimeFilter) (r : ProjectRecord) : Bool :=
  match parseRFC3339Nano r.timestamp with
  | none => false
  | some ts => tf.containsT ts.toInstant && r.type_ == "assistant"

/-- Branch-based weekday normalisation of parseProjectJSONLForWeekday
(part_005 lines 758-766): native Sunday 0 becomes 6, else weekday - 1. -/
def weekdayIndexBranch (ts : DateTime) : Nat :=
  let weekday := ts.goWeekday
  if weekday = 0 then 6 else weekday - 1

/-- Modular weekday normalisation of parseProjectFileAggregate (part_005
lines 1262-1264). -/
def weekdayIndexMod (ts : DateTime) : Nat :=
  (ts.goWeekday + 6) % 7

/-- One iteration of the parseProjectJSONLForWeekday decode loop (part_005
lines 733-769), on the bare 7-slot count array. -/
def weekdayLineStep (tf : TimeFilter) (wd : List Nat)
    (line : Option ProjectRecord) : List Nat :=
  match line with
  | none => wd
  | some r =>
      match parseRFC3339Nano r.timestamp with
      | none => wd
      | some ts =>
          if ¬ tf.containsT ts.toInstant then wd
          else if r.type_ ≠ "assistant" then wd
          else
            let weekday := weekdayIndexBranch ts
            wd.set weekday (wd.getD weekday 0 + 1)

/-- parseProjectJSONLForWeekday (part_005 lines 725-772) over one decoded
file. -/
def parseProjectJSONLForWeekday (tf : TimeFilter) (lines : List (Option ProjectRecord))
    (wd : List Nat) : List Nat :=
  lines.foldl (weekdayLineStep tf) wd

/-! ## Sequential per-project statistics pass (part_005, parseProjectJSONL) -/

/-- Set insertion of a session id (Go sessions[sid] = true on a set map). -/
def insertSession (sessions : List String) (sid : String) : List String :=
  if sessions.contains sid then sessions else sessions ++ [sid]

/-- In-place update of the value behind an existing key (a Go write through
the stored pointer); absent keys are left untouched. -/
def mapUpdate (m : List (String × ProjectStatItem)) (p : String)
    (f : ProjectStatItem → ProjectStatItem) : List (String × ProjectStatItem) :=
  match m with
  | [] => []
  | (k, it) :: rest => if k = p then (k, f it) :: rest else (k, it) :: mapUpdate rest p f

/-- Insert of the zero-valued item when the key is absent (part_005 lines
648-652). -/
def ensureProject (m : List (String × ProjectStatItem)) (p : String) :
    List (String × ProjectStatItem) :=
  match m with
  | [] => [(p, { project := p, sessionCount := 0, messageCount := 0 })]
  | (k, it) :: rest => if k = p then (k, it) :: rest else (k, it) :: ensureProject rest p

/-- Shared state of ParseProjectStatsWithFilter threaded through
parseProjectJSONL: the project map, the running message total, and the
global session-id set. -/
structure ProjectStatsState where
  projectMap : List (String × ProjectStatItem)
  totalMessages : Nat
  sessions : List String
  deriving Repr, DecidableEq

/-- One iteration of the parseProjectJSONL decode loop (part_005 lines
621-667): skip on decode or timestamp failure or a failing filter; else
ensure the project entry, mark its session count to 1 on the first non-empty
session id, and count assistant messages. -/
def projectStatsLineStep (tf : TimeFilter) (st : ProjectStatsState)
    (line : Option ProjectRecord) : ProjectStatsState :=
  match line with
  | none => st
  | some r =>
      match parseRFC3339Nano r.timestamp with
      | none => st
      | some ts =>
          if ¬ tf.containsT ts.toInstant then st
          else
            let projectName := if r.cwd = "" then "Unknown" else r.cwd
            let st1 := { st with projectMap := ensureProject st.projectMap projectName }
            let st2 :=
              if r.sessionId ≠ "" then
                { st1 with
                  sessions := insertSession st1.sessions r.sessionId,
                  projectMap := mapUpdate st1.projectMap projectName
                    (fun it => if it.sessionCount = 0 then { it with sessionCount := 1 } else it) }
              else st1
            if r.type_ = "assistant" then
              { st2 with
                projectMap := mapUpdate st2.projectMap projectName
                  (fun it => { it with messageCount := it.messageCount + 1 }),
                totalMessages := st2.totalMessages + 1 }
            else st2

/-- parseProjectJSONL (part_005 lines 613-670) over one decoded file. -/
def parseProjectJSONL (tf : TimeFilter) (lines : List (Option ProjectRecord))
    (st : ProjectStatsState) : ProjectStatsState :=
  lines.foldl (projectStatsLineStep tf) st

/-- ParseProjectStatsWithFilter (part_005 lines 553-610): every jsonl file of
every project directory folded through parseProjectJSONL from the empty
state (per-file open errors are skipped, hence absent files simply do not
appear in the list). -/
def parseProjectStatsRun (tf : TimeFilter) (files : List (List (Option ProjectRecord))) :
    ProjectStatsState :=
  files.foldl (fun st f => parseProjectJSONL tf f st)
    { projectMap := [], totalMessages := 0, sessions := [] }

/-! ## Snapshot cache (src/cmd/insights/cache.go) -/

/-- TimeRange from cache.go: two instants whose Go zero value means
unbounded. -/
structure TimeRange where
  start : Int
  end_ : Int
  deriving Repr, DecidableEq

/-- TimeRange.Contains from cache.go lines 55-72. -/
def TimeRange.containsT (tr : TimeRange) (t : Int) : Bool :=
  if tr.start = goZeroTime ∧ tr.end_ = goZeroTime then true
  else if tr.start ≠ goZeroTime ∧ t < tr.start then false
  else if tr.end_ ≠ goZeroTime ∧ tr.end_ < t then false
  else true

/-- DayAggregate from cache.go lines 31-39. -/
structure DayAggregate where
  date : String
  messageCount : Nat
  sessionCount : Nat
  toolCallCount : Nat
  hourlyCounts : List Nat
  projectCounts : List (String × Nat)
  modelCounts : List (String × Nat)
  deriving Repr, DecidableEq

/-- HourAggregate from cache.go lines 42-46. -/
structure HourAggregate where
  hour : Nat
  messageCount : Nat
  sessionCount : Nat
  deriving Repr, DecidableEq

/-- WeekdayItem of the insights cache (same shape as the dashboard one). -/
structure WeekdayItem where
  weekday : Nat
  weekdayName : String
  messageCount : Nat
  deriving Repr, DecidableEq

/-- CacheFile from cache.go lines 12-28. -/
structure CacheFile where
  version : String
  lastUpdate : Int
  timeRange : TimeRange
  dailyStats : List (String × DayAggregate)
  hourlyStats : List (Option HourAggregate)
  totalMessages : Nat
  totalSessions : Nat
  projectStats : List (String × ProjectStatItem)
  modelUsage : List (String × ModelUsageItem)
  weekdayStats : List (Option WeekdayItem)
  mcpToolStats : List (String × Nat)
  deriving Repr, DecidableEq

/-- CacheFile.IsExpired (cache.go lines 119-122): the data modification
instant is strictly later than the cache update instant. -/
def CacheFile.isExpired (cf : CacheFile) (dataLastModified : Int) : Bool :=
  decide (cf.lastUpdate < dataLastModified)

/-- DayAggregate.AddMessage (cache.go lines 198-211): MessageCount++, the
hour slot when 0 <= hour < 24, and the project counter. -/
def DayAggregate.addMessage (da : DayAggregate) (project : String) (hour : Int) : DayAggregate :=
  let da1 := { da with messageCount := da.messageCount + 1 }
  let da2 :=
    if 0 ≤ hour ∧ hour < 24 then
      { da1 with hourlyCounts := da1.hourlyCounts.set hour.toNat (da1.hourlyCounts.getD hour.toNat 0 + 1) }
    else da1
  { da2 with projectCounts := bump da2.projectCounts project 1 }

/-- Dereference-and-copy of a nullable array slot (the hsCopy pattern of
cache.go lines 163-175): nil stays nil, a pointee is copied. -/
def copyOpt : Option α → Option α
  | some h => some h
  | none => none

/-- Value copy of one map entry (the projCopy pattern of cache.go lines
178-192). -/
def copyPair (kv : String × α) : String × α :=
  (kv.1, kv.2)

/-- One iteration of the daily-statistics loop of QueryByTimeRange
(cache.go lines 143-160): an unparseable date key is skipped; a date inside
the query range is copied into the result and its message and session
counts are added to the totals. -/
def queryDayStep (start end_ : Int) (acc : CacheFile) (kv : String × DayAggregate) :
    CacheFile :=
  match parseDateKey kv.1 with
  | none => acc
  | some t =>
      if TimeRange.containsT { start := start, end_ := end_ } t then
        { acc with
          dailyStats := acc.dailyStats ++ [kv],
          totalMessages := acc.totalMessages + kv.2.messageCount,
          totalSessions := acc.totalSessions + kv.2.sessionCount }
      else acc

/-- CacheFile.QueryByTimeRange (cache.go lines 125-195): filter the daily
statistics by the parsed date key and sum their message and session counts;
copy every other aggregate without range filtering. -/
def CacheFile.queryByTimeRange (cf : CacheFile) (start end_ : Int) : CacheFile :=
  let base : CacheFile :=
    { version := cf.version, lastUpdate := cf.lastUpdate,
      timeRange := { start := start, end_ := end_ },
      dailyStats := [], hourlyStats := List.replicate 24 none,
      totalMessages := 0, totalSessions := 0,
      projectStats := [], modelUsage := [],
      weekdayStats := List.replicate 7 none, mcpToolStats := [] }
  let afterDaily := cf.dailyStats.foldl (queryDayStep start end_) base
  { afterDaily with
    hourlyStats := cf.hourlyStats.map copyOpt,
    weekdayStats := cf.weekdayStats.map copyOpt,
    projectStats := cf.projectStats.map copyPair,
    modelUsage := cf.modelUsage.map copyPair,
    mcpToolStats := cf.mcpToolStats.map copyPair }

/-! ## Cache builder (src/cmd/insights/cache_builder.go) -/

/-- Inverse civil-date conversion (calendar date of a day count), the
standard civil-from-days algorithm. -/
def civilFromDays (z0 : Int) : Int × Int × Int :=
  let z := z0 + 719468
  let era := z / 146097
  let doe := z - era * 146097
  let yoe := (doe - doe / 1460 + doe / 36524 - doe / 146096) / 365
  let y := yoe + era * 400
  let doy := doe - (365 * yoe + yoe / 4 - yoe / 100)
  let mp := (5 * doy + 2) / 153
  let d := doy - (153 * mp + 2) / 5 + 1
  let m := if mp < 10 then mp + 3 else mp - 9
  (if m ≤ 2 then y + 1 else y, m, d)

/-- Go Format with layout 2006-01-02 of a seconds instant (timezone
modelled as UTC). -/
def dateKeyOfSeconds (sec : Int) : String :=
  match civilFromDays (sec / 86400) with
  | (y, m, d) => pad4 y.toNat ++ "-" ++ pad2 m.toNat ++ "-" ++ pad2 d.toNat

/-- Read of a daily entry, or the fresh zero aggregate inserted when the key
is absent (cache_builder.go lines 212-218 and 343-349). -/
def getOrInitDay (m : List (String × DayAggregate)) (k : String) : DayAggregate :=
  match m with
  | [] => { date := k, messageCount := 0, sessionCount := 0, toolCallCount := 0,
            hourlyCounts := List.replicate 24 0, projectCounts := [], modelCounts := [] }
  | (k2, da) :: rest => if k2 = k then da else getOrInitDay rest k

/-- Store of a daily entry under its key (insert or replace). -/
def setDay (m : List (String × DayAggregate)) (k : String) (da : DayAggregate) :
    List (String × DayAggregate) :=
  match m with
  | [] => [(k, da)]
  | (k2, old) :: rest => if k2 = k then (k2, da) :: rest else (k2, old) :: setDay rest k da

/-- One iteration of the buildFromHistory decode loop (cache_builder.go lines
197-223): decode failures are skipped; a decoded record lands in its date's
aggregate via AddMessage and bumps the global message total. -/
def buildFromHistoryLine (cache : CacheFile) (line : Option HistoryRecord) : CacheFile :=
  match line with
  | none => cache
  | some record =>
      let sec := Int.tdiv record.timestamp 1000
      let dateKey := dateKeyOfSeconds sec
      let hour : Int := hourOfSeconds sec
      let da := (getOrInitDay cache.dailyStats dateKey).addMessage record.project hour
      { cache with
        dailyStats := setDay cache.dailyStats dateKey da,
        totalMessages := cache.totalMessages + 1 }

/-- CacheBuilder.buildFromHistory (cache_builder.go lines 185-226): an absent
history file (os.IsNotExist) is not an error and leaves the cache untouched. -/
def buildFromHistory (cache : CacheFile) (file : Option (List (Option HistoryRecord))) :
    Except String CacheFile :=
  match file with
  | none => Except.ok cache
  | some lines => Except.ok (lines.foldl buildFromHistoryLine cache)

/-- One iteration of the parseProjectFile decode loop of the cache builder
(cache_builder.go lines 313-353): assistant records contribute their session
id to the set and their model to the date's model counter. -/
def cbProjectFileLine (acc : CacheFile × List String) (line : Option ProjectRecord) :
    CacheFile × List String :=
  match line with
  | none => acc
  | some record =>
      match parseRFC3339Nano record.timestamp with
      | none => acc
      | some ts =>
          if record.type_ ≠ "assistant" then acc
          else
            let sessions := if record.sessionId ≠ "" then insertSession acc.2 record.sessionId else acc.2
            match record.message with
            | some msg =>
                if msg.model ≠ "" then
                  let dateKey := ts.dateKey
                  let da := getOrInitDay acc.1.dailyStats dateKey
                  let da2 := { da with modelCounts := bump da.modelCounts msg.model 1 }
                  ({ acc.1 with dailyStats := setDay acc.1.dailyStats dateKey da2 }, sessions)
                else (acc.1, sessions)
            | none => (acc.1, sessions)

/-- CacheBuilder.buildFromProjects (cache_builder.go lines 229-266): an
absent projects directory is not an error and leaves the cache untouched;
otherwise every file is folded and TotalSessions becomes the session-set
size. -/
def buildFromProjects (cache : CacheFile) (dir : Option (List (List (Option ProjectRecord)))) :
    Except String CacheFile :=
  match dir with
  | none => Except.ok cache
  | some files =>
      let res := files.foldl (fun acc f => f.foldl cbProjectFileLine acc) (cache, [])
      Except.ok { res.1 with totalSessions := res.2.length }

/-- One debug-log file of the cache builder: a file is modelled as the list,
per line, of its regex matches (server, tool) of the fixed MCP pattern; each
match bumps the server::tool counter (cache_builder.go lines 359-386). -/
def parseDebugFileCB (cache : CacheFile) (file : List (List (String × String))) : CacheFile :=
  file.foldl
    (fun c line =>
      line.foldl
        (fun c2 m => { c2 with mcpToolStats := bump c2.mcpToolStats (m.1 ++ "::" ++ m.2) 1 }) c)
    cache

/-- CacheBuilder.buildFromDebugLogs (cache_builder.go lines 269-302): an
absent debug directory is not an error and leaves the cache untouched. -/
def buildFromDebugLogs (cache : CacheFile)
    (dir : Option (List (List (List (String × String))))) : Except String CacheFile :=
  match dir with
  | none => Except.ok cache
  | some files => Except.ok (files.foldl parseDebugFileCB cache)

/-! ## Live concurrent parsers: top-level source resolution
(concurrent.go and part_005) -/

/-- ParseHistoryConcurrent (concurrent.go lines 28-131): os.Open failure on
history.jsonl (including an absent file) is returned to the caller as an
error; otherwise the producer-filtered records are aggregated. -/
def ParseHistoryConcurrentE (tf : TimeFilter) (file : Option (List (Option HistoryRecord))) :
    Except String CmdHourAcc :=
  match file with
  | none => Except.error "open history.jsonl failed"
  | some lines =>
      Except.ok (processHistoryRecords { cmdCounts := [], hourlyCounts := [] } (producerRecords tf lines))

/-- ParseDebugLogsConcurrent (concurrent.go lines 134-209): os.ReadDir
failure on the debug directory (including an absent directory) is returned
to the caller as an error; otherwise files are pre-filtered by modification
time and their per-line matches summed. -/
def ParseDebugLogsConcurrentE (tf : TimeFilter)
    (dir : Option (List (Int × List (List (String × String))))) :
    Except String (List (String × Nat)) :=
  match dir with
  | none => Except.error "read debug dir failed"
  | some entries =>
      let filtered := entries.filter (fun e => tf.containsT e.1)
      Except.ok (filtered.foldl
        (fun acc f => f.2.foldl
          (fun a line => line.foldl (fun a2 m => bump a2 (m.1 ++ "::" ++ m.2) 1) a) acc)
        [])

/-- ParseProjectsConcurrentOnce (part_005 lines 1144-1149): os.ReadDir
failure on the projects directory (including an absent directory) is
returned to the caller as an error. -/
def ParseProjectsConcurrentOnceE (tf : TimeFilter)
    (dir : Option (List (List (Option ProjectRecord)))) : Except String ProjectAggregate :=
  match dir with
  | none => Except.error "read projects dir failed"
  | some files => Except.ok (parseProjectsSeq tf files)

/-! ## Serialized snapshot (CacheFile.Save and LoadCacheFile, cache.go
lines 75-116): encoding/json marshalling modelled as an explicit JSON value;
the filesystem write-then-read of Save followed by Load is the identity on
that value, so the round trip is Load applied to the Save output. -/

/-- JSON values. -/
inductive Json where
  | str : String → Json
  | num : Int → Json
  | null : Json
  | arr : List Json → Json
  | obj : List (String × Json) → Json

/-- Field access of a JSON object by name (json.Unmarshal matches struct
fields by name). -/
def getField (fields : List (String × Json)) (name : String) : Option Json :=
  match fields with
  | [] => none
  | (k, v) :: rest => if k = name then some v else getField rest name

/-- Integer content of a JSON value. -/
def Json.asInt : Json → Option Int
  | .num n => some n
  | _ => none

/-- Non-negative integer content of a JSON value. -/
def Json.asNat : Json → Option Nat
  | .num n => if 0 ≤ n then some n.toNat else none
  | _ => none

/-- String content of a JSON value. -/
def Json.asStr : Json → Option String
  | .str s => some s
  | _ => none

/-- Array content of a JSON value. -/
def Json.asArr : Json → Option (List Json)
  | .arr xs => some xs
  | _ => none

/-- Object content of a JSON value. -/
def Json.asObj : Json → Option (List (String × Json))
  | .obj fs => some fs
  | _ => none

/-- Elementwise fallible decode of a list, failing on the first failure. -/
def mapOption (f : α → Option β) : List α → Option (List β)
  | [] => some []
  | a :: t => do
      let b ← f a
      let rest ← mapOption f t
      pure (b :: rest)

/-- A Go map encoded as a JSON object of its entries. -/
def encMap (enc : α → Json) (m : List (String × α)) : Json :=
  Json.obj (m.map (fun kv => (kv.1, enc kv.2)))

/-- Decode of a JSON object into a Go map. -/
def decMap (dec : Json → Option α) (j : Json) : Option (List (String × α)) := do
  let fs ← j.asObj
  mapOption (fun kv => (dec kv.2).map (fun v => (kv.1, v))) fs

/-- A nullable pointer encoded as null or the pointee. -/
def encOpt (enc : α → Json) : Option α → Json
  | none => Json.null
  | some x => enc x

/-- Decode of null-or-value. -/
def decOpt (dec : Json → Option α) (j : Json) : Option (Option α) :=
  match j with
  | .null => some none
  | _ => (dec j).map some

/-- An int array encoded as a JSON array. -/
def encNatList (xs : List Nat) : Json :=
  Json.arr (xs.map (fun (n : Nat) => Json.num n))

/-- Decode of an int array. -/
def decNatList (j : Json) : Option (List Nat) := do
  let xs ← j.asArr
  mapOption Json.asNat xs

/-- TimeRange to JSON. -/
def encTimeRange (tr : TimeRange) : Json :=
  Json.obj [("Start", Json.num tr.start), ("End", Json.num tr.end_)]

/-- TimeRange from JSON. -/
def decTimeRange (j : Json) : Option TimeRange := do
  let fs ← j.asObj
  let s ← (getField fs "Start").bind Json.asInt
  let e ← (getField fs "End").bind Json.asInt
  pure { start := s, end_ := e }

/-- DayAggregate to JSON. -/
def encDayAggregate (da : DayAggregate) : Json :=
  Json.obj
    [("Date", Json.str da.date),
     ("MessageCount", Json.num da.messageCount),
     ("SessionCount", Json.num da.sessionCount),
     ("ToolCallCount", Json.num da.toolCallCount),
     ("HourlyCounts", encNatList da.hourlyCounts),
     ("ProjectCounts", encMap (fun (n : Nat) => Json.num n) da.projectCounts),
     ("ModelCounts", encMap (fun (n : Nat) => Json.num n) da.modelCounts)]

/-- DayAggregate from JSON. -/
def decDayAggregate (j : Json) : Option DayAggregate := do
  let fs ← j.asObj
  let date ← (getField fs "Date").bind Json.asStr
  let mc ← (getField fs "MessageCount").bind Json.asNat
  let sc ← (getField fs "SessionCount").bind Json.asNat
  let tc ← (getField fs "ToolCallCount").bind Json.asNat
  let hc ← (getField fs "HourlyCounts").bind decNatList
  let pc ← (getField fs "ProjectCounts").bind (decMap Json.asNat)
  let mo ← (getField fs "ModelCounts").bind (decMap Json.asNat)
  pure { date := date, messageCount := mc, sessionCount := sc, toolCallCount := tc,
         hourlyCounts := hc, projectCounts := pc, modelCounts := mo }

/-- HourAggregate to JSON. -/
def encHourAggregate (h : HourAggregate) : Json :=
  Json.obj
    [("Hour", Json.num h.hour),
     ("MessageCount", Json.num h.messageCount),
     ("SessionCount", Json.num h.sessionCount)]

/-- HourAggregate from JSON. -/
def decHourAggregate (j : Json) : Option HourAggregate := do
  let fs ← j.asObj
  let h ← (getField fs "Hour").bind Json.asNat
  let mc ← (getField fs "MessageCount").bind Json.asNat
  let sc ← (getField fs "SessionCount").bind Json.asNat
  pure { hour := h, messageCount := mc, sessionCount := sc }

/-- ProjectStatItem to JSON. -/
def encProjectStatItem (p : ProjectStatItem) : Json :=
  Json.obj
    [("Project", Json.str p.project),
     ("SessionCount", Json.num p.sessionCount),
     ("MessageCount", Json.num p.messageCount)]

/-- ProjectStatItem from JSON. -/
def decProjectStatItem (j : Json) : Option ProjectStatItem := do
  let fs ← j.asObj
  let p ← (getField fs "Project").bind Json.asStr
  let sc ← (getField fs "SessionCount").bind Json.asNat
  let mc ← (getField fs "MessageCount").bind Json.asNat
  pure { project := p, sessionCount := sc, messageCount := mc }

/-- ModelUsageItem to JSON. -/
def encModelUsageItem (m : ModelUsageItem) : Json :=
  Json.obj
    [("Model", Json.str m.model),
     ("Count", Json.num m.count),
     ("Tokens", Json.num m.tokens)]

/-- ModelUsageItem from JSON. -/
def decModelUsageItem (j : Json) : Option ModelUsageItem := do
  let fs ← j.asObj
  let mo ← (getField fs "Model").bind Json.asStr
  let c ← (getField fs "Count").bind Json.asNat
  let t ← (getField fs "Tokens").bind Json.asNat
  pure { model := mo, count := c, tokens := t }

/-- WeekdayItem to JSON. -/
def encWeekdayItem (w : WeekdayItem) : Json :=
  Json.obj
    [("Weekday", Json.num w.weekday),
     ("WeekdayName", Json.str w.weekdayName),
     ("MessageCount", Json.num w.messageCount)]

/-- WeekdayItem from JSON. -/
def decWeekdayItem (j : Json) : Option WeekdayItem := do
  let fs ← j.asObj
  let w ← (getField fs "Weekday").bind Json.asNat
  let n ← (getField fs "WeekdayName").bind Json.asStr
  let mc ← (getField fs "MessageCount").bind Json.asNat
  pure { weekday := w, weekdayName := n, messageCount := mc }

/-- CacheFile.Save (cache.go lines 75-94): the serialized snapshot written
to the cache path. -/
def CacheFile.save (cf : CacheFile) : Json :=
  Json.obj
    [("Version", Json.str cf.version),
     ("LastUpdate", Json.num cf.lastUpdate),
     ("TimeRange", encTimeRange cf.timeRange),
     ("DailyStats", encMap encDayAggregate cf.dailyStats),
     ("HourlyStats", Json.arr (cf.hourlyStats.map (encOpt encHourAggregate))),
     ("TotalMessages", Json.num cf.totalMessages),
     ("TotalSessions", Json.num cf.totalSessions),
     ("ProjectStats", encMap encProjectStatItem cf.projectStats),
     ("ModelUsage", encMap encModelUsageItem cf.modelUsage),
     ("WeekdayStats", Json.arr (cf.weekdayStats.map (encOpt encWeekdayItem))),
     ("MCPToolStats", encMap (fun (n : Nat) => Json.num n) cf.mcpToolStats)]

/-- LoadCacheFile (cache.go lines 97-116): deserialization of the snapshot
read back from the cache path; none models the unmarshal error. -/
def loadCacheFile (j : Json) : Option CacheFile := do
  let fs ← j.asObj
  let v ← (getField fs "Version").bind Json.asStr
  let lu ← (getField fs "LastUpdate").bind Json.asInt
  let tr ← (getField fs "TimeRange").bind decTimeRange
  let ds ← (getField fs "DailyStats").bind (decMap decDayAggregate)
  let hsArr ← (getField fs "HourlyStats").bind Json.asArr
  let hs ← mapOption (decOpt decHourAggregate) hsArr
  let tm ← (getField fs "TotalMessages").bind Json.asNat
  let tsn ← (getField fs "TotalSessions").bind Json.asNat
  let ps ← (getField fs "ProjectStats").bind (decMap decProjectStatItem)
  let mu ← (getField fs "ModelUsage").bind (decMap decModelUsageItem)
  let wsArr ← (getField fs "WeekdayStats").bind Json.asArr
  let ws ← mapOption (decOpt decWeekdayItem) wsArr
  let mt ← (getField fs "MCPToolStats").bind (decMap Json.asNat)
  pure { version := v, lastUpdate := lu, timeRange := tr, dailyStats := ds,
         hourlyStats := hs, totalMessages := tm, totalSessions := tsn,
         projectStats := ps, modelUsage := mu, weekdayStats := ws,
         mcpToolStats := mt }

/-! ## Observables used by the claim statements -/

/-- Sum of the values of a counter map. -/
def sumCounts (m : List (String × Nat)) : Nat :=
  (m.map (fun kv => kv.2)).sum

/-- Sum of the per-date message counts of an aggregate. -/
def sumDailyActivity (agg : ProjectAggregate) : Nat :=
  sumCounts agg.dailyActivity

/-- Sum of the per-project message counts of an aggregate. -/
def sumProjectMessages (agg : ProjectAggregate) : Nat :=
  (agg.projectStats.map (fun kv => kv.2.messageCount)).sum

/-- Message count stored for one project. -/
def lookupProjMsg (m : List (String × ProjectStatItem)) (p : String) : Nat :=
  match m with
  | [] => 0
  | (k, it) :: rest => if k = p then it.messageCount else lookupProjMsg rest p

/-- Request count and token sum stored for one model. -/
def lookupModel (m : List (String × ModelUsageItem)) (name : String) : Nat × Nat :=
  match m with
  | [] => (0, 0)
  | (k, it) :: rest => if k = name then (it.count, it.tokens) else lookupModel rest name

/-- The records of a decoded line stream that the aggregation counts. -/
def countedRecords (tf : TimeFilter) (lines : List (Option ProjectRecord)) :
    List ProjectRecord :=
  (lines.filterMap id).filter (countedRecord tf)

/-- A daily-stats key whose parsed calendar date lies within the inclusive
instant range. -/
def inRange (s e : Int) (key : String) : Bool :=
  match parseDateKey key with
  | some t => decide (s ≤ t) && decide (t ≤ e)
  | none => false

/-- A history record contributing to the slash-command counter of key k. -/
def contributesCmd (k : String) (r : HistoryRecord) : Bool :=
  r.display.startsWith "/" && (firstField r.display == some k)

/-- Hour key of a history record. -/
def hourKeyOf (r : HistoryRecord) : String :=
  pad2 (hourOfSeconds (Int.tdiv r.timestamp 1000))

/-- Sum of the values a counter map holds under one key (equals the lookup
when keys are unique). -/
def sumVals (m : List (String × Nat)) (k : String) : Nat :=
  ((m.filter (fun kv => kv.1 == k)).map (fun kv => kv.2)).sum

/-- A record contributing one request to the usage counter of a model. -/
def modelContributes (name : String) (r : ProjectRecord) : Bool :=
  (parseRFC3339Nano r.timestamp).isSome
    && (match r.message with
        | some msg => msg.model != "" && msg.model == name
        | none => false)

/-- Token contribution of a record to one model (inputTokens + outputTokens
when the record counts toward that model, else nothing). -/
def modelTokensOf (name : String) (r : ProjectRecord) : Nat :=
  match parseRFC3339Nano r.timestamp, r.message with
  | some _, some msg =>
      if msg.model != "" && msg.model == name then msg.inputTokens + msg.outputTokens
      else 0
  | _, _ => 0

/-- The project name a counted record is attributed to. -/
def projectNameOf (r : ProjectRecord) : String :=
  if r.cwd = "" then "Unknown" else r.cwd

/-- A concrete two-batch partition of two history records. -/
def c8HistBatches : List (List HistoryRecord) :=
  [[{ display := "/help", timestamp := 0, project := "p" }],
   [{ display := "hi", timestamp := 3600000, project := "p" }]]

/-- The same two history records in the opposite sequential order. -/
def c8HistSeq : List HistoryRecord :=
  [{ display := "hi", timestamp := 3600000, project := "p" },
   { display := "/help", timestamp := 0, project := "p" }]

/-- One counted assistant record of a concrete project file. -/
def c8Rec : ProjectRecord :=
  { cwd := "p1", sessionId := "s", type_ := "assistant",
    message := some { model := "m", inputTokens := 3, outputTokens := 4 },
    timestamp := "2026-01-07T10:00:00Z" }

/-- A concrete per-file partition of the decoded project lines. -/
def c8ProjFiles : List (List (Option ProjectRecord)) :=
  [[some c8Rec], [none]]

/-- The same decoded project lines in another interleaving. -/
def c8ProjSeq : List (Option ProjectRecord) :=
  [none, some c8Rec]

/-- The empty shared accumulator of ParseHistoryConcurrent. -/
def stInit : CmdHourAcc :=
  { cmdCounts := [], hourlyCounts := [] }

/-- The worker-local results of a batch partition: each worker drains its
batches into a local accumulator (concurrent.go lines 82-105). -/
def workerResults (bs : List (List HistoryRecord)) : List CmdHourAcc :=
  bs.map (processHistoryRecords stInit)

/-- Merge of all local accumulators into the shared result, one critical
section per worker (concurrent.go lines 107-115), in completion order. -/
def mergeAll (locals : List CmdHourAcc) : CmdHourAcc :=
  locals.foldl mergeAcc stInit

/-- A concrete timestamp falling on a platform-native Sunday (2026-10-11). -/
def sundayTs : DateTime :=
  { year := 2026, month := 10, day := 11, hour := 12, minute := 0, second := 0,
    nanos := 0, offsetMin := 0 }

/-- A daily aggregate holding only a message count (for concrete examples). -/
def exampleDay (d : String) (mc : Nat) : DayAggregate :=
  { date := d, messageCount := mc, sessionCount := 0, toolCallCount := 0,
    hourlyCounts := List.replicate 24 0, projectCounts := [], modelCounts := [] }

/-- The cache of the specification example: daily entries 2026-01-06,
2026-01-07 and 2026-01-08 with message counts 50, 80 and 100. -/
def exampleCache : CacheFile :=
  { version := "1.0", lastUpdate := 0,
    timeRange := { start := goZeroTime, end_ := goZeroTime },
    dailyStats :=
      [("2026-01-06", exampleDay "2026-01-06" 50),
       ("2026-01-07", exampleDay "2026-01-07" 80),
       ("2026-01-08", exampleDay "2026-01-08" 100)],
    hourlyStats := List.replicate 24 none, totalMessages := 230, totalSessions := 0,
    projectStats := [], modelUsage := [], weekdayStats := List.replicate 7 none,
    mcpToolStats := [] }

end CCInsights

namespace CCInsights

/-- C4: TimeFilter.Contains(t) is true iff (Start is absent or t >= Start)
and (End is absent or t <= End); in particular the filter with both bounds
absent contains every instant. -/
theorem timeFilter_contains_iff (tf : TimeFilter) (t : Int) :
    (tf.containsT t = true ↔
      ((tf.start = none ∨ ∃ s, tf.start = some s ∧ s ≤ t)
        ∧ (tf.end_ = none ∨ ∃ e, tf.end_ = some e ∧ t ≤ e)))
    ∧ TimeFilter.containsT { start := none, end_ := none } t = true := by
  constructor
  · cases hs : tf.start with
    | none =>
        cases he : tf.end_ with
        | none => simp [TimeFilter.containsT, hs, he]
        | some e => simp [TimeFilter.containsT, hs, he]
    | some s =>
        cases he : tf.end_ with
        | none => simp [TimeFilter.containsT, hs, he]
        | some e => simp [TimeFilter.containsT, hs, he]
  · simp [TimeFilter.containsT]

/-! ## Helper lemmas on the association-list maps -/

theorem lookupD_bump (m : List (String × Nat)) (k k2 : String) (d : Nat) :
    lookupD (bump m k d) k2 = lookupD m k2 + (if k2 = k then d else 0) := by
  induction m with
  | nil =>
      simp only [bump, lookupD]
      by_cases h : k = k2
      · subst h; simp
      · have h2 : ¬ k2 = k := fun hh => h hh.symm
        simp [h, h2]
  | cons hd t ih =>
      obtain ⟨a, b⟩ := hd
      simp only [bump]
      by_cases h1 : a = k
      · subst h1
        simp only [if_pos rfl, lookupD]
        by_cases h2 : a = k2
        · subst h2; simp
        · have h3 : ¬ k2 = a := fun hh => h2 hh.symm
          simp [h2, h3]
      · simp only [if_neg h1, lookupD]
        by_cases h2 : a = k2
        · subst h2
          have h3 : ¬ a = k := h1
          simp [h3]
        · simp [h2, ih]

theorem sumCounts_bump (m : List (String × Nat)) (k : String) (d : Nat) :
    sumCounts (bump m k d) = sumCounts m + d := by
  induction m with
  | nil => simp [bump, sumCounts]
  | cons hd t ih =>
      obtain ⟨a, b⟩ := hd
      by_cases h : a = k <;> simp [bump, h, sumCounts] at ih ⊢ <;> omega

theorem sumMsg_bumpProject (m : List (String × ProjectStatItem)) (p : String) :
    ((bumpProject m p).map (fun kv => kv.2.messageCount)).sum
      = (m.map (fun kv => kv.2.messageCount)).sum + 1 := by
  induction m with
  | nil => simp [bumpProject]
  | cons hd t ih =>
      obtain ⟨a, b⟩ := hd
      by_cases h : a = p <;> simp [bumpProject, h] at ih ⊢ <;> omega

/-! ## C6: the globally copied aggregates of QueryByTimeRange -/

/-- C6: for every cache and every query range, QueryByRange copies the
time-invariant aggregates — project totals, model usage, weekday
distribution, tool-call counts, and the hourly histogram — into the result
unchanged, without filtering any of them by the requested range. -/
theorem query_copies_global_aggregates (cf : CacheFile) (s e : Int) :
    (cf.queryByTimeRange s e).hourlyStats = cf.hourlyStats
    ∧ (cf.queryByTimeRange s e).weekdayStats = cf.weekdayStats
    ∧ (cf.queryByTimeRange s e).projectStats = cf.projectStats
    ∧ (cf.queryByTimeRange s e).modelUsage = cf.modelUsage
    ∧ (cf.queryByTimeRange s e).mcpToolStats = cf.mcpToolStats := by
  have hopt : ∀ {α : Type} (l : List (Option α)), l.map copyOpt = l := by
    intro α l
    induction l with
    | nil => rfl
    | cons a t ih => cases a <;> simp [copyOpt, ih]
  have hpair : ∀ {α : Type} (l : List (String × α)), l.map copyPair = l := by
    intro α l
    induction l with
    | nil => rfl
    | cons a t ih => obtain ⟨x, y⟩ := a; simp [copyPair, ih]
  refine ⟨?_, ?_, ?_, ?_, ?_⟩ <;>
    simp only [CacheFile.queryByTimeRange] <;>
    first
      | exact hopt _
      | exact hpair _

/-! ## C9: lossless save/load round trip of the snapshot -/

theorem asNat_num (n : Nat) : Json.asNat (Json.num n) = some n := by
  simp [Json.asNat]

theorem mapOption_dec_enc {α : Type} (dec : Json → Option α) (enc : α → Json)
    (h : ∀ a, dec (enc a) = some a) (xs : List α) :
    mapOption dec (xs.map enc) = some xs := by
  induction xs with
  | nil => rfl
  | cons a t ih => simp [mapOption, h, ih]

theorem mapOption_kv {α : Type} (dec : Json → Option α) (enc : α → Json)
    (h : ∀ a, dec (enc a) = some a) (xs : List (String × α)) :
    mapOption (fun kv => (dec kv.2).map (fun v => (kv.1, v)))
      (xs.map (fun kv => (kv.1, enc kv.2))) = some xs := by
  induction xs with
  | nil => rfl
  | cons a t ih =>
      obtain ⟨k, v⟩ := a
      simp [mapOption, h, ih]

theorem decMap_encMap {α : Type} (dec : Json → Option α) (enc : α → Json)
    (h : ∀ a, dec (enc a) = some a) (xs : List (String × α)) :
    decMap dec (encMap enc xs) = some xs := by
  simp [decMap, encMap, Json.asObj, mapOption_kv dec enc h xs]

theorem decNatList_enc (xs : List Nat) : decNatList (encNatList xs) = some xs := by
  unfold decNatList encNatList
  simp only [Json.asArr, Option.some_bind]
  exact mapOption_dec_enc Json.asNat (fun (n : Nat) => Json.num n) asNat_num xs

theorem decOpt_enc {α : Type} (dec : Json → Option α) (enc : α → Json)
    (h : ∀ a, dec (enc a) = some a)
    (hobj : ∀ a, ∃ fs, enc a = Json.obj fs) (o : Option α) :
    decOpt dec (encOpt enc o) = some o := by
  cases o with
  | none => rfl
  | some a =>
      obtain ⟨fs, hfs⟩ := hobj a
      have e1 : encOpt enc (some a) = enc a := rfl
      rw [e1, hfs]
      show (dec (Json.obj fs)).map some = some (some a)
      rw [← hfs, h]
      rfl

theorem decTimeRange_enc (tr : TimeRange) : decTimeRange (encTimeRange tr) = some tr := rfl

theorem decDay_encDay (da : DayAggregate) :
    decDayAggregate (encDayAggregate da) = some da := by
  cases da
  simp [encDayAggregate, decDayAggregate, getField, Json.asObj, Json.asStr,
        asNat_num, decNatList_enc, decMap_encMap Json.asNat _ asNat_num]

theorem decHour_encHour (h : HourAggregate) :
    decHourAggregate (encHourAggregate h) = some h := rfl

theorem decProj_encProj (p : ProjectStatItem) :
    decProjectStatItem (encProjectStatItem p) = some p := rfl

theorem decModel_encModel (m : ModelUsageItem) :
    decModelUsageItem (encModelUsageItem m) = some m := rfl

theorem decWeekday_encWeekday (w : WeekdayItem) :
    decWeekdayItem (encWeekdayItem w) = some w := rfl

set_option maxHeartbeats 1600000 in
/-- C9: for every CacheFile value, Save followed by Load succeeds and
returns a cache equal to the saved one in every enumerated field — the
serialized snapshot round-trips losslessly (the filesystem write-then-read
is the identity on the serialized value). -/
theorem save_load_roundtrip (cf : CacheFile) :
    loadCacheFile (CacheFile.save cf) = some cf := by
  obtain ⟨v, lu, tr, ds, hs, tm, tsn, ps, mu, ws, mt⟩ := cf
  have hds : decMap decDayAggregate (encMap encDayAggregate ds) = some ds :=
    decMap_encMap _ _ decDay_encDay ds
  have hps : decMap decProjectStatItem (encMap encProjectStatItem ps) = some ps :=
    decMap_encMap _ _ decProj_encProj ps
  have hmu : decMap decModelUsageItem (encMap encModelUsageItem mu) = some mu :=
    decMap_encMap _ _ decModel_encModel mu
  have hmt : decMap Json.asNat (encMap (fun (n : Nat) => Json.num n) mt) = some mt :=
    decMap_encMap _ _ asNat_num mt
  have hhs : mapOption (decOpt decHourAggregate) (hs.map (encOpt encHourAggregate)) = some hs :=
    mapOption_dec_enc _ _ (decOpt_enc _ _ decHour_encHour (fun a => ⟨_, rfl⟩)) hs
  have hws : mapOption (decOpt decWeekdayItem) (ws.map (encOpt encWeekdayItem)) = some ws :=
    mapOption_dec_enc _ _ (decOpt_enc _ _ decWeekday_encWeekday (fun a => ⟨_, rfl⟩)) ws
  have expand : loadCacheFile (CacheFile.save
      { version := v, lastUpdate := lu, timeRange := tr, dailyStats := ds,
        hourlyStats := hs, totalMessages := tm, totalSessions := tsn,
        projectStats := ps, modelUsage := mu, weekdayStats := ws, mcpToolStats := mt })
      = (do
          let tr2 ← decTimeRange (encTimeRange tr)
          let ds2 ← decMap decDayAggregate (encMap encDayAggregate ds)
          let hs2 ← mapOption (decOpt decHourAggregate) (hs.map (encOpt encHourAggregate))
          let ps2 ← decMap decProjectStatItem (encMap encProjectStatItem ps)
          let mu2 ← decMap decModelUsageItem (encMap encModelUsageItem mu)
          let ws2 ← mapOption (decOpt decWeekdayItem) (ws.map (encOpt encWeekdayItem))
          let mt2 ← decMap Json.asNat (encMap (fun (n : Nat) => Json.num n) mt)
          pure { version := v, lastUpdate := lu, timeRange := tr2, dailyStats := ds2,
                 hourlyStats := hs2, totalMessages := tm, totalSessions := tsn,
                 projectStats := ps2, modelUsage := mu2, weekdayStats := ws2,
                 mcpToolStats := mt2 }) := rfl
  rw [expand, decTimeRange_enc]
  simp only [Option.bind_eq_bind, Option.some_bind, hds, hps, hmu, hmt, hhs, hws]
  rfl

/-! ## C10: per-project SessionCount never exceeds 1 -/

theorem mapUpdate_all (m : List (String × ProjectStatItem)) (p : String)
    (f : ProjectStatItem → ProjectStatItem) (P : ProjectStatItem → Bool)
    (hf : ∀ it, P it = true → P (f it) = true)
    (hm : m.all (fun kv => P kv.2) = true) :
    (mapUpdate m p f).all (fun kv => P kv.2) = true := by
  induction m with
  | nil => simp [mapUpdate]
  | cons hd t ih =>
      obtain ⟨k, it⟩ := hd
      simp only [List.all_cons, Bool.and_eq_true] at hm
      by_cases h : k = p
      · simp only [mapUpdate, if_pos h, List.all_cons, Bool.and_eq_true]
        exact ⟨hf it hm.1, hm.2⟩
      · simp only [mapUpdate, if_neg h, List.all_cons, Bool.and_eq_true]
        exact ⟨hm.1, ih hm.2⟩

theorem ensureProject_all (m : List (String × ProjectStatItem)) (p : String)
    (P : ProjectStatItem → Bool)
    (hz : P { project := p, sessionCount := 0, messageCount := 0 } = true)
    (hm : m.all (fun kv => P kv.2) = true) :
    (ensureProject m p).all (fun kv => P kv.2) = true := by
  induction m with
  | nil => simp [ensureProject, hz]
  | cons hd t ih =>
      obtain ⟨k, it⟩ := hd
      simp only [List.all_cons, Bool.and_eq_true] at hm
      by_cases h : k = p
      · simp only [ensureProject, if_pos h, List.all_cons, Bool.and_eq_true]
        exact ⟨hm.1, hm.2⟩
      · simp only [ensureProject, if_neg h, List.all_cons, Bool.and_eq_true]
        exact ⟨hm.1, ih hm.2⟩

theorem projectStatsLineStep_sessionLe (tf : TimeFilter) (st : ProjectStatsState)
    (line : Option ProjectRecord)
    (h : st.projectMap.all (fun kv => kv.2.sessionCount ≤ 1) = true) :
    ((projectStatsLineStep tf st line).projectMap.all
      (fun kv => kv.2.sessionCount ≤ 1)) = true := by
  cases line with
  | none => exact h
  | some r =>
      simp only [projectStatsLineStep]
      cases parseRFC3339Nano r.timestamp with
      | none => exact h
      | some ts =>
          by_cases hc : ¬ tf.containsT ts.toInstant
          · simp only [if_pos hc]; exact h
          · simp only [if_neg hc]
            have h1 : ((ensureProject st.projectMap (if r.cwd = "" then "Unknown" else r.cwd)).all
                (fun kv => decide (kv.2.sessionCount ≤ 1))) = true :=
              ensureProject_all st.projectMap (if r.cwd = "" then "Unknown" else r.cwd)
                (fun it => decide (it.sessionCount ≤ 1)) rfl h
            have h2 : ∀ (m : List (String × ProjectStatItem)),
                m.all (fun kv => decide (kv.2.sessionCount ≤ 1)) = true →
                (mapUpdate m (if r.cwd = "" then "Unknown" else r.cwd)
                  (fun it => if it.sessionCount = 0 then { it with sessionCount := 1 } else it)).all
                  (fun kv => decide (kv.2.sessionCount ≤ 1)) = true := by
              intro m hmm
              refine mapUpdate_all m _ _ (fun it => decide (it.sessionCount ≤ 1)) ?_ hmm
              intro it hit
              by_cases hz : it.sessionCount = 0
              · simp [hz]
              · simp only [if_neg hz]
                exact hit
            have h3 : ∀ (m : List (String × ProjectStatItem)),
                m.all (fun kv => decide (kv.2.sessionCount ≤ 1)) = true →
                (mapUpdate m (if r.cwd = "" then "Unknown" else r.cwd)
                  (fun it => { it with messageCount := it.messageCount + 1 })).all
                  (fun kv => decide (kv.2.sessionCount ≤ 1)) = true := by
              intro m hmm
              refine mapUpdate_all m _ _ (fun it => decide (it.sessionCount ≤ 1)) ?_ hmm
              intro it hit
              simpa using hit
            split
            · refine h3 _ ?_
              split
              · exact h2 _ h1
              · exact h1
            · split
              · exact h2 _ h1
              · exact h1

theorem parseProjectJSONL_sessionLe (tf : TimeFilter) (lines : List (Option ProjectRecord))
    (st : ProjectStatsState)
    (h : st.projectMap.all (fun kv => kv.2.sessionCount ≤ 1) = true) :
    ((parseProjectJSONL tf lines st).projectMap.all
      (fun kv => kv.2.sessionCount ≤ 1)) = true := by
  induction lines generalizing st with
  | nil => exact h
  | cons l t ih =>
      exact ih _ (projectStatsLineStep_sessionLe tf st l h)

/-- C10: in the per-project statistics pass, every project's SessionCount is
at most 1 after processing any sequence of records — it is set to 1 on the
first record with a non-empty session id for its project and never
incremented again; only the global session total deduplicates across the
pass. -/
theorem projectStats_sessionCount_le_one (tf : TimeFilter)
    (files : List (List (Option ProjectRecord))) :
    ((parseProjectStatsRun tf files).projectMap.all
      (fun kv => kv.2.sessionCount ≤ 1)) = true := by
  have aux : ∀ (fs : List (List (Option ProjectRecord))) (st : ProjectStatsState),
      st.projectMap.all (fun kv => kv.2.sessionCount ≤ 1) = true →
      ((fs.foldl (fun st2 f => parseProjectJSONL tf f st2) st).projectMap.all
        (fun kv => kv.2.sessionCount ≤ 1)) = true := by
    intro fs
    induction fs with
    | nil => intro st h; exact h
    | cons f t ih =>
        intro st h
        exact ih _ (parseProjectJSONL_sessionLe tf f st h)
  exact aux files _ rfl

/-! ## C2: decode failures are skipped, the rest is aggregated -/

theorem projectLineStep_eq (tf : TimeFilter) (agg : ProjectAggregate) (r : ProjectRecord) :
    projectLineStep tf agg (some r) =
      (if countedRecord tf r then applyRecord agg r else agg) := by
  simp only [projectLineStep, countedRecord]
  obtain hx | ⟨ts, hx⟩ := (parseRFC3339Nano r.timestamp).eq_none_or_eq_some
  · simp [hx]
  · simp only [hx]
    by_cases hc : tf.containsT ts.toInstant
    · by_cases ht : r.type_ = "assistant"
      · simp [hc, ht]
      · simp [hc, ht]
    · simp [hc]

theorem parseProjectFileAggregate_eq_counted (tf : TimeFilter)
    (lines : List (Option ProjectRecord)) (agg : ProjectAggregate) :
    parseProjectFileAggregate tf lines agg
      = (countedRecords tf lines).foldl applyRecord agg := by
  induction lines generalizing agg with
  | nil => rfl
  | cons l t ih =>
      cases l with
      | none => exact ih agg
      | some r =>
          show List.foldl (projectLineStep tf) (projectLineStep tf agg (some r)) t = _
          rw [projectLineStep_eq]
          by_cases hcr : countedRecord tf r = true
          · rw [if_pos hcr]
            have : countedRecords tf (some r :: t) = r :: countedRecords tf t := by
              simp [countedRecords, hcr]
            rw [this]
            exact ih (applyRecord agg r)
          · rw [if_neg hcr]
            have : countedRecords tf (some r :: t) = countedRecords tf t := by
              simp [countedRecords, hcr]
            rw [this]
            exact ih agg

theorem stickyErr_never_terminates (tf : TimeFilter) :
    ∀ (fuel : Nat) (es : List DecodeEvent) (agg : ProjectAggregate),
      parseProjectFileLoop tf fuel { events := es, stickyErr := true } agg = none := by
  intro fuel
  induction fuel with
  | zero => intro es agg; rfl
  | succ n ih =>
      intro es agg
      simp only [parseProjectFileLoop, Decoder.decode]
      exact ih es agg

/-- C2 is the intent but not the behaviour: at the failing input — a file
whose first line is malformed JSON, followed by a well-formed assistant
record — the decode loop of parseProjectFileAggregate never terminates for
any step budget, because the json.Decoder stores the syntax error (dec.err)
and the continue-on-error loop retries it forever, so the remaining record
is never aggregated; an unmarshal failure on a well-formed value (typeErr)
in the same position is instead skipped, and the pass completes with the
aggregate of the remaining counted records, exactly as the claim
describes. -/
theorem malformed_line_never_skipped :
    (∀ fuel : Nat,
      parseProjectFileLoop { start := none, end_ := none } fuel
        { events := [DecodeEvent.malformed, DecodeEvent.ok c8Rec], stickyErr := false }
        initAggregate = none)
    ∧ parseProjectFileLoop { start := none, end_ := none } 3
        { events := [DecodeEvent.typeErr, DecodeEvent.ok c8Rec], stickyErr := false }
        initAggregate
      = some (parseProjectFileAggregate { start := none, end_ := none }
          [none, some c8Rec] initAggregate) := by
  constructor
  · intro fuel
    cases fuel with
    | zero => rfl
    | succ n =>
        simp only [parseProjectFileLoop, Decoder.decode]
        exact stickyErr_never_terminates { start := none, end_ := none } n _ _
  · decide

/-! ## C1: total daily messages equal total project messages -/

theorem applyRecord_sum_eq (agg : ProjectAggregate) (r : ProjectRecord)
    (h : sumDailyActivity agg = sumProjectMessages agg) :
    sumDailyActivity (applyRecord agg r) = sumProjectMessages (applyRecord agg r) := by
  unfold applyRecord
  cases parseRFC3339Nano r.timestamp with
  | none => exact h
  | some ts =>
      simp only [sumDailyActivity, sumProjectMessages] at h ⊢
      cases r.message with
      | none =>
          show sumCounts (bump agg.dailyActivity ts.dateKey 1) = _
          rw [sumCounts_bump, sumMsg_bumpProject, h]
      | some msg =>
          by_cases hm : msg.model ≠ ""
          · simp only [if_pos hm]
            show sumCounts (bump agg.dailyActivity ts.dateKey 1) = _
            rw [sumCounts_bump, sumMsg_bumpProject, h]
          · simp only [if_neg hm]
            show sumCounts (bump agg.dailyActivity ts.dateKey 1) = _
            rw [sumCounts_bump, sumMsg_bumpProject, h]

theorem parseProjectFileAggregate_sum_eq (tf : TimeFilter)
    (lines : List (Option ProjectRecord)) (agg : ProjectAggregate)
    (h : sumDailyActivity agg = sumProjectMessages agg) :
    sumDailyActivity (parseProjectFileAggregate tf lines agg)
      = sumProjectMessages (parseProjectFileAggregate tf lines agg) := by
  rw [parseProjectFileAggregate_eq_counted]
  generalize countedRecords tf lines = rs
  induction rs generalizing agg with
  | nil => exact h
  | cons r t ih => exact ih (applyRecord agg r) (applyRecord_sum_eq agg r h)

/-- C1: after every aggregation pass over any fixed input corpus with any
fixed TimeFilter, the sum of per-date message counts over all dates equals
the sum of per-project message counts over all projects — each counted
assistant record increments both accumulators exactly once, and likewise
DayAggregate.AddMessage increments the day's message count and the sum of
its per-project counters by exactly one. -/
theorem daily_equals_project_message_sum (tf : TimeFilter)
    (files : List (List (Option ProjectRecord)))
    (da : DayAggregate) (p : String) (hr : Int) :
    sumDailyActivity (parseProjectsSeq tf files)
        = sumProjectMessages (parseProjectsSeq tf files)
    ∧ (da.addMessage p hr).messageCount = da.messageCount + 1
    ∧ sumCounts (da.addMessage p hr).projectCounts = sumCounts da.projectCounts + 1 := by
  refine ⟨?_, ?_, ?_⟩
  · have aux : ∀ (fs : List (List (Option ProjectRecord))) (agg : ProjectAggregate),
        sumDailyActivity agg = sumProjectMessages agg →
        sumDailyActivity (fs.foldl (fun a f => parseProjectFileAggregate tf f a) agg)
          = sumProjectMessages (fs.foldl (fun a f => parseProjectFileAggregate tf f a) agg) := by
      intro fs
      induction fs with
      | nil => intro agg h; exact h
      | cons f t ih =>
          intro agg h
          exact ih _ (parseProjectFileAggregate_sum_eq tf f agg h)
    exact aux files initAggregate rfl
  · unfold DayAggregate.addMessage
    split <;> rfl
  · unfold DayAggregate.addMessage
    split <;> simp [sumCounts_bump]

/-! ## C7: weekday bucket normalisation -/

theorem goWeekday_lt (ts : DateTime) : ts.goWeekday < 7 := by
  unfold DateTime.goWeekday goWeekdayOfDays
  have h1 := Int.emod_lt_of_pos (daysFromCivil ts.year ts.month ts.day + 4)
    (by norm_num : (0 : Int) < 7)
  have h2 := Int.emod_nonneg (daysFromCivil ts.year ts.month ts.day + 4)
    (by norm_num : (7 : Int) ≠ 0)
  omega

theorem weekdayIndexBranch_eq_mod (ts : DateTime) :
    weekdayIndexBranch ts = weekdayIndexMod ts := by
  have h7 := goWeekday_lt ts
  unfold weekdayIndexBranch weekdayIndexMod
  by_cases h : ts.goWeekday = 0
  · simp [h]
  · simp only [if_neg h]
    omega

theorem projectLineStep_weekday (tf : TimeFilter) (agg : ProjectAggregate)
    (l : Option ProjectRecord) :
    (projectLineStep tf agg l).weekdayData = weekdayLineStep tf agg.weekdayData l := by
  cases l with
  | none => rfl
  | some r =>
      simp only [projectLineStep, weekdayLineStep, applyRecord]
      obtain hx | ⟨ts, hx⟩ := (parseRFC3339Nano r.timestamp).eq_none_or_eq_some
      · simp [hx]
      · simp only [hx]
        by_cases hc : tf.containsT ts.toInstant
        · by_cases ht : r.type_ ≠ "assistant"
          · simp [hc, ht]
          · simp only [hc, not_true_eq_false, if_false, ht, ite_false, if_neg]
            have hb : weekdayIndexBranch ts = (ts.goWeekday + 6) % 7 :=
              weekdayIndexBranch_eq_mod ts
            rw [hb]
            cases r.message with
            | none => rfl
            | some msg => by_cases hm : msg.model ≠ "" <;> simp [hm]
        · simp [hc]

theorem parseProjectFileAggregate_weekday (tf : TimeFilter)
    (lines : List (Option ProjectRecord)) (agg : ProjectAggregate) :
    (parseProjectFileAggregate tf lines agg).weekdayData
      = parseProjectJSONLForWeekday tf lines agg.weekdayData := by
  induction lines generalizing agg with
  | nil => rfl
  | cons l t ih =>
      have he : parseProjectFileAggregate tf (l :: t) agg
          = parseProjectFileAggregate tf t (projectLineStep tf agg l) := rfl
      rw [he, ih, projectLineStep_weekday]
      rfl

/-- C7: a counted record's weekday bucket index equals
(platform_weekday + 6) mod 7 with Monday=0 ... Sunday=6; a platform-native
Sunday (index 0) is attributed to index 6; and the branch-based
normalisation of parseProjectJSONLForWeekday computes the same weekday
array as the modular form of parseProjectFileAggregate. -/
theorem weekday_bucket_normalisation (ts : DateTime) (tf : TimeFilter)
    (lines : List (Option ProjectRecord)) :
    weekdayIndexBranch ts = weekdayIndexMod ts
    ∧ weekdayIndexMod ts = (ts.goWeekday + 6) % 7
    ∧ (ts.goWeekday = 0 → weekdayIndexMod ts = 6)
    ∧ (parseProjectFileAggregate tf lines initAggregate).weekdayData
        = parseProjectJSONLForWeekday tf lines (List.replicate 7 0) := by
  refine ⟨weekdayIndexBranch_eq_mod ts, rfl, ?_, ?_⟩
  · intro h
    unfold weekdayIndexMod
    rw [h]
  · exact parseProjectFileAggregate_weekday tf lines initAggregate

/-- Witness for C7: 2026-10-11 is a platform-native Sunday (Go weekday 0)
and its bucket index is 6. -/
theorem weekday_bucket_normalisation_witness :
    sundayTs.goWeekday = 0 ∧ weekdayIndexMod sundayTs = 6 :=
  ⟨by decide,
    (weekday_bucket_normalisation sundayTs { start := none, end_ := none } []).2.2.1
      (by decide)⟩

/-! ## C3: absent top-level sources -/

/-- Counterexample to C3: with the debug directory absent, the live
ParseDebugLogsConcurrent pass returns an error to the caller instead of an
empty result (concurrent.go lines 137-140 return the os.ReadDir error). -/
theorem missing_debug_dir_is_error :
    ParseDebugLogsConcurrentE { start := none, end_ := none } none
      = Except.error "read debug dir failed" := rfl

/-- C3 (amended): in the cache builder an absent top-level source (history
file, projects directory, debug directory) yields an empty contribution and
no error; the live concurrent parsers instead return the resolution failure
of their top-level source (absent history file, debug directory or projects
directory) to the caller as an error. -/
theorem missing_sources_builder_ok_live_error (cache : CacheFile) (tf : TimeFilter) :
    buildFromHistory cache none = Except.ok cache
    ∧ buildFromProjects cache none = Except.ok cache
    ∧ buildFromDebugLogs cache none = Except.ok cache
    ∧ (∃ e, ParseHistoryConcurrentE tf none = Except.error e)
    ∧ (∃ e, ParseDebugLogsConcurrentE tf none = Except.error e)
    ∧ (∃ e, ParseProjectsConcurrentOnceE tf none = Except.error e) :=
  ⟨rfl, rfl, rfl, ⟨_, rfl⟩, ⟨_, rfl⟩, ⟨_, rfl⟩⟩

/-! ## C5: range query sums exactly the in-range daily entries -/

theorem timeRange_contains_iff (s e t : Int)
    (h1 : s ≠ goZeroTime) (h2 : e ≠ goZeroTime) :
    (TimeRange.containsT { start := s, end_ := e } t = true) ↔ (s ≤ t ∧ t ≤ e) := by
  unfold TimeRange.containsT
  by_cases ha : t < s
  · simp [ha, h1, h2]
  · by_cases hb : e < t
    · simp [ha, hb, h1, h2]
    · simp [ha, hb, h1, h2]
      omega

theorem query_fold_totals (s e : Int) (h1 : s ≠ goZeroTime) (h2 : e ≠ goZeroTime)
    (L : List (String × DayAggregate)) (acc : CacheFile) :
    ((L.foldl (queryDayStep s e) acc).totalMessages
        = acc.totalMessages
          + ((L.filter (fun kv => inRange s e kv.1)).map (fun kv => kv.2.messageCount)).sum)
    ∧ ((L.foldl (queryDayStep s e) acc).totalSessions
        = acc.totalSessions
          + ((L.filter (fun kv => inRange s e kv.1)).map (fun kv => kv.2.sessionCount)).sum) := by
  induction L generalizing acc with
  | nil => simp
  | cons kv t ih =>
      obtain hx | ⟨tt, hx⟩ := (parseDateKey kv.1).eq_none_or_eq_some
      · have hstep : queryDayStep s e acc kv = acc := by
          unfold queryDayStep
          rw [hx]
        have hin : inRange s e kv.1 = false := by
          unfold inRange
          rw [hx]
        have hf : (kv :: t).filter (fun kv2 => inRange s e kv2.1)
            = t.filter (fun kv2 => inRange s e kv2.1) := by
          simp [List.filter_cons, hin]
        constructor
        · show ((t.foldl (queryDayStep s e) (queryDayStep s e acc kv)).totalMessages = _)
          rw [hstep, hf]
          exact (ih acc).1
        · show ((t.foldl (queryDayStep s e) (queryDayStep s e acc kv)).totalSessions = _)
          rw [hstep, hf]
          exact (ih acc).2
      · by_cases hb : TimeRange.containsT { start := s, end_ := e } tt = true
        · have hstep : queryDayStep s e acc kv =
              { acc with
                dailyStats := acc.dailyStats ++ [kv],
                totalMessages := acc.totalMessages + kv.2.messageCount,
                totalSessions := acc.totalSessions + kv.2.sessionCount } := by
            unfold queryDayStep
            simp only [hx]
            rw [if_pos hb]
          have hin : inRange s e kv.1 = true := by
            unfold inRange
            rw [hx]
            have := (timeRange_contains_iff s e tt h1 h2).1 hb
            simp [this.1, this.2]
          have hf : (kv :: t).filter (fun kv2 => inRange s e kv2.1)
              = kv :: t.filter (fun kv2 => inRange s e kv2.1) := by
            simp [List.filter_cons, hin]
          constructor
          · show ((t.foldl (queryDayStep s e) (queryDayStep s e acc kv)).totalMessages = _)
            rw [hstep, hf]
            have := (ih { acc with
                dailyStats := acc.dailyStats ++ [kv],
                totalMessages := acc.totalMessages + kv.2.messageCount,
                totalSessions := acc.totalSessions + kv.2.sessionCount }).1
            rw [this]
            simp
            omega
          · show ((t.foldl (queryDayStep s e) (queryDayStep s e acc kv)).totalSessions = _)
            rw [hstep, hf]
            have := (ih { acc with
                dailyStats := acc.dailyStats ++ [kv],
                totalMessages := acc.totalMessages + kv.2.messageCount,
                totalSessions := acc.totalSessions + kv.2.sessionCount }).2
            rw [this]
            simp
            omega
        · have hstep : queryDayStep s e acc kv = acc := by
            unfold queryDayStep
            simp only [hx]
            rw [if_neg hb]
          have hin : inRange s e kv.1 = false := by
            unfold inRange
            rw [hx]
            refine Bool.eq_false_iff.mpr (fun hcon => ?_)
            simp only [Bool.and_eq_true, decide_eq_true_eq] at hcon
            exact hb ((timeRange_contains_iff s e tt h1 h2).2 hcon)
          have hf : (kv :: t).filter (fun kv2 => inRange s e kv2.1)
              = t.filter (fun kv2 => inRange s e kv2.1) := by
            simp [List.filter_cons, hin]
          constructor
          · show ((t.foldl (queryDayStep s e) (queryDayStep s e acc kv)).totalMessages = _)
            rw [hstep, hf]
            exact (ih acc).1
          · show ((t.foldl (queryDayStep s e) (queryDayStep s e acc kv)).totalSessions = _)
            rw [hstep, hf]
            exact (ih acc).2

/-- C5: for every cache and every query range with real (non-zero-time)
bounds, QueryByRange sums into the result's totals exactly the per-date
message and session counts of the dates whose parsed calendar date lies
within the inclusive range. -/
theorem query_range_sums_in_range_days (cf : CacheFile) (s e : Int)
    (h1 : s ≠ goZeroTime) (h2 : e ≠ goZeroTime) :
    (cf.queryByTimeRange s e).totalMessages
        = ((cf.dailyStats.filter (fun kv => inRange s e kv.1)).map
            (fun kv => kv.2.messageCount)).sum
    ∧ (cf.queryByTimeRange s e).totalSessions
        = ((cf.dailyStats.filter (fun kv => inRange s e kv.1)).map
            (fun kv => kv.2.sessionCount)).sum := by
  have h := query_fold_totals s e h1 h2 cf.dailyStats
    { version := cf.version, lastUpdate := cf.lastUpdate,
      timeRange := { start := s, end_ := e },
      dailyStats := [], hourlyStats := List.replicate 24 none,
      totalMessages := 0, totalSessions := 0,
      projectStats := [], modelUsage := [],
      weekdayStats := List.replicate 7 none, mcpToolStats := [] }
  refine ⟨?_, ?_⟩
  · have e1 : (cf.queryByTimeRange s e).totalMessages
        = (cf.dailyStats.foldl (queryDayStep s e)
            { version := cf.version, lastUpdate := cf.lastUpdate,
              timeRange := { start := s, end_ := e },
              dailyStats := [], hourlyStats := List.replicate 24 none,
              totalMessages := 0, totalSessions := 0,
              projectStats := [], modelUsage := [],
              weekdayStats := List.replicate 7 none, mcpToolStats := [] }).totalMessages := rfl
    rw [e1, h.1]
    simp
  · have e1 : (cf.queryByTimeRange s e).totalSessions
        = (cf.dailyStats.foldl (queryDayStep s e)
            { version := cf.version, lastUpdate := cf.lastUpdate,
              timeRange := { start := s, end_ := e },
              dailyStats := [], hourlyStats := List.replicate 24 none,
              totalMessages := 0, totalSessions := 0,
              projectStats := [], modelUsage := [],
              weekdayStats := List.replicate 7 none, mcpToolStats := [] }).totalSessions := rfl
    rw [e1, h.2]
    simp

/-- Counterexample to C5 as universally stated: at the query range whose
bounds are both the Go zero time (the encoding QueryByTimeRange receives
for an unbounded filter), the totals sum every daily entry (230) although
no entry's parsed calendar date lies within the inclusive range
[zero time, zero time] (that filtered sum is 0). -/
theorem query_zero_range_counterexample :
    (exampleCache.queryByTimeRange goZeroTime goZeroTime).totalMessages = 230
    ∧ ((exampleCache.dailyStats.filter
        (fun kv => inRange goZeroTime goZeroTime kv.1)).map
        (fun kv => kv.2.messageCount)).sum = 0 := by
  constructor <;> decide

/-- Witness for C5: on the specification example — daily entries with
message counts 50, 80, 100 on 2026-01-06, 2026-01-07, 2026-01-08 — the
query range [2026-01-07, 2026-01-08] has real bounds, the totals equal the
filtered sums, and totalMessages is 180. -/
theorem query_range_sums_witness :
    dateInstant 2026 1 7 ≠ goZeroTime
    ∧ dateInstant 2026 1 8 ≠ goZeroTime
    ∧ ((exampleCache.queryByTimeRange (dateInstant 2026 1 7) (dateInstant 2026 1 8)).totalMessages
        = ((exampleCache.dailyStats.filter
            (fun kv => inRange (dateInstant 2026 1 7) (dateInstant 2026 1 8) kv.1)).map
            (fun kv => kv.2.messageCount)).sum
      ∧ (exampleCache.queryByTimeRange (dateInstant 2026 1 7) (dateInstant 2026 1 8)).totalSessions
        = ((exampleCache.dailyStats.filter
            (fun kv => inRange (dateInstant 2026 1 7) (dateInstant 2026 1 8) kv.1)).map
            (fun kv => kv.2.sessionCount)).sum)
    ∧ (exampleCache.queryByTimeRange (dateInstant 2026 1 7) (dateInstant 2026 1 8)).totalMessages
        = 180 :=
  ⟨by decide, by decide,
   query_range_sums_in_range_days exampleCache (dateInstant 2026 1 7) (dateInstant 2026 1 8)
     (by decide) (by decide),
   by decide⟩

/-! ## C8: totals are invariant under batching, worker count and
interleaving -/

theorem sumVals_cons (a : String) (b : Nat) (t : List (String × Nat)) (k : String) :
    sumVals ((a, b) :: t) k = (if a = k then b else 0) + sumVals t k := by
  by_cases h : a = k <;> simp [sumVals, List.filter_cons, h]

theorem sumVals_bump (m : List (String × Nat)) (k k2 : String) (d : Nat) :
    sumVals (bump m k d) k2 = sumVals m k2 + (if k2 = k then d else 0) := by
  induction m with
  | nil =>
      show sumVals [(k, d)] k2 = sumVals [] k2 + _
      rw [sumVals_cons]
      by_cases h : k = k2
      · subst h; simp [sumVals]
      · have h2 : ¬ k2 = k := fun hh => h hh.symm
        simp [sumVals, h, h2]
  | cons hd t ih =>
      obtain ⟨a, b⟩ := hd
      have hb : bump ((a, b) :: t) k d
          = if a = k then (a, b + d) :: t else (a, b) :: bump t k d := rfl
      rw [hb]
      by_cases h1 : a = k
      · rw [if_pos h1]
        subst h1
        rw [sumVals_cons, sumVals_cons]
        by_cases h2 : a = k2
        · subst h2; simp; omega
        · have h3 : ¬ k2 = a := fun hh => h2 hh.symm
          simp [h2, h3]
      · rw [if_neg h1, sumVals_cons, sumVals_cons, ih]
        omega

theorem historyStep_cmd_char (F : List (String × Nat) → String → Nat)
    (hF : ∀ m k d k2, F (bump m k d) k2 = F m k2 + (if k2 = k then d else 0))
    (acc : CmdHourAcc) (r : HistoryRecord) (k : String) :
    F (historyStep acc r).cmdCounts k
      = F acc.cmdCounts k + (if contributesCmd k r then 1 else 0) := by
  unfold historyStep contributesCmd
  by_cases hs : r.display.startsWith "/"
  · simp only [hs, if_true, Bool.true_and]
    cases hff : firstField r.display with
    | none => simp
    | some w =>
        simp only [hF]
        by_cases hk : k = w
        · subst hk; simp
        · have hne : ¬ (some w == some k) = true := by
            simp
            exact fun hh => hk hh.symm
          simp [hk, hne]
  · simp [hs]

theorem historyStep_hour_char (F : List (String × Nat) → String → Nat)
    (hF : ∀ m k d k2, F (bump m k d) k2 = F m k2 + (if k2 = k then d else 0))
    (acc : CmdHourAcc) (r : HistoryRecord) (k : String) :
    F (historyStep acc r).hourlyCounts k
      = F acc.hourlyCounts k + (if hourKeyOf r == k then 1 else 0) := by
  have hacc1 : F (historyStep acc r).hourlyCounts k
      = F (bump acc.hourlyCounts (hourKeyOf r) 1) k := by
    unfold historyStep
    by_cases hs : r.display.startsWith "/"
    · cases hff : firstField r.display with
      | none => simp [hs, hff, hourKeyOf]
      | some w => simp [hs, hff, hourKeyOf]
    · simp [hs, hourKeyOf]
  rw [hacc1, hF]
  by_cases hk : k = hourKeyOf r
  · subst hk; simp
  · have hne : ¬ (hourKeyOf r == k) = true := by
      simp
      exact fun hh => hk hh.symm
    simp [hk, hne]

theorem processHistory_char (F : List (String × Nat) → String → Nat)
    (hF : ∀ m k d k2, F (bump m k d) k2 = F m k2 + (if k2 = k then d else 0))
    (rs : List HistoryRecord) (acc : CmdHourAcc) (k : String) :
    (F (processHistoryRecords acc rs).cmdCounts k
      = F acc.cmdCounts k + rs.countP (fun r => contributesCmd k r))
    ∧ (F (processHistoryRecords acc rs).hourlyCounts k
      = F acc.hourlyCounts k + rs.countP (fun r => hourKeyOf r == k)) := by
  induction rs generalizing acc with
  | nil => simp [processHistoryRecords]
  | cons r t ih =>
      have h1 : processHistoryRecords acc (r :: t)
          = processHistoryRecords (historyStep acc r) t := rfl
      constructor
      · rw [h1, (ih (historyStep acc r)).1, historyStep_cmd_char F hF,
            List.countP_cons]
        omega
      · rw [h1, (ih (historyStep acc r)).2, historyStep_hour_char F hF,
            List.countP_cons]
        omega

theorem lookupD_mergeCounts (sh l : List (String × Nat)) (k : String) :
    lookupD (mergeCounts sh l) k = lookupD sh k + sumVals l k := by
  induction l generalizing sh with
  | nil => simp [mergeCounts, sumVals]
  | cons kv t ih =>
      obtain ⟨a, b⟩ := kv
      have h1 : mergeCounts sh ((a, b) :: t) = mergeCounts (bump sh a b) t := rfl
      rw [h1, ih, lookupD_bump, sumVals_cons]
      by_cases h : a = k
      · subst h; simp; omega
      · have h2 : ¬ k = a := fun hh => h hh.symm
        simp [h, h2]

theorem lookupD_mergeAll (locals : List CmdHourAcc) (k : String) :
    (lookupD (mergeAll locals).cmdCounts k
      = (locals.map (fun l => sumVals l.cmdCounts k)).sum)
    ∧ (lookupD (mergeAll locals).hourlyCounts k
      = (locals.map (fun l => sumVals l.hourlyCounts k)).sum) := by
  have aux : ∀ (ls : List CmdHourAcc) (sh : CmdHourAcc),
      (lookupD (ls.foldl mergeAcc sh).cmdCounts k
        = lookupD sh.cmdCounts k + (ls.map (fun l => sumVals l.cmdCounts k)).sum)
      ∧ (lookupD (ls.foldl mergeAcc sh).hourlyCounts k
        = lookupD sh.hourlyCounts k + (ls.map (fun l => sumVals l.hourlyCounts k)).sum) := by
    intro ls
    induction ls with
    | nil => intro sh; simp
    | cons l t ih =>
        intro sh
        have h1 : (l :: t).foldl mergeAcc sh = t.foldl mergeAcc (mergeAcc sh l) := rfl
        constructor
        · rw [h1, ((ih) (mergeAcc sh l)).1]
          show lookupD (mergeCounts sh.cmdCounts l.cmdCounts) k + _ = _
          rw [lookupD_mergeCounts]
          simp
          omega
        · rw [h1, ((ih) (mergeAcc sh l)).2]
          show lookupD (mergeCounts sh.hourlyCounts l.hourlyCounts) k + _ = _
          rw [lookupD_mergeCounts]
          simp
          omega
  have h := aux locals stInit
  simpa [stInit, lookupD] using h

theorem lookupProjMsg_bumpProject (m : List (String × ProjectStatItem)) (p p2 : String) :
    lookupProjMsg (bumpProject m p) p2
      = lookupProjMsg m p2 + (if p2 = p then 1 else 0) := by
  induction m with
  | nil =>
      have hb : bumpProject [] p
          = [(p, { project := p, sessionCount := 0, messageCount := 1 })] := rfl
      rw [hb]
      by_cases h : p = p2
      · subst h; simp [lookupProjMsg]
      · have h2 : ¬ p2 = p := fun hh => h hh.symm
        simp [lookupProjMsg, h, h2]
  | cons hd t ih =>
      obtain ⟨a, it⟩ := hd
      have hb : bumpProject ((a, it) :: t) p
          = if a = p then (a, { it with messageCount := it.messageCount + 1 }) :: t
            else (a, it) :: bumpProject t p := rfl
      rw [hb]
      by_cases h1 : a = p
      · rw [if_pos h1]
        subst h1
        by_cases h2 : a = p2
        · subst h2; simp [lookupProjMsg]
        · have h3 : ¬ p2 = a := fun hh => h2 hh.symm
          simp [lookupProjMsg, h2, h3]
      · rw [if_neg h1]
        by_cases h2 : a = p2
        · subst h2
          have h3 : ¬ a = p := h1
          simp [lookupProjMsg, h3]
        · simp [lookupProjMsg, h2, ih]

theorem lookupModel_bumpModel (m : List (String × ModelUsageItem)) (name : String)
    (tok : Nat) (n2 : String) :
    lookupModel (bumpModel m name tok) n2
      = ((lookupModel m n2).1 + (if n2 = name then 1 else 0),
         (lookupModel m n2).2 + (if n2 = name then tok else 0)) := by
  induction m with
  | nil =>
      have hb : bumpModel [] name tok
          = [(name, { model := name, count := 1, tokens := tok })] := rfl
      rw [hb]
      by_cases h : name = n2
      · subst h; simp [lookupModel]
      · have h2 : ¬ n2 = name := fun hh => h hh.symm
        simp [lookupModel, h, h2]
  | cons hd t ih =>
      obtain ⟨a, it⟩ := hd
      have hb : bumpModel ((a, it) :: t) name tok
          = if a = name then
              (a, { it with count := it.count + 1, tokens := it.tokens + tok }) :: t
            else (a, it) :: bumpModel t name tok := rfl
      rw [hb]
      by_cases h1 : a = name
      · rw [if_pos h1]
        subst h1
        by_cases h2 : a = n2
        · subst h2; simp [lookupModel]
        · have h3 : ¬ n2 = a := fun hh => h2 hh.symm
          simp [lookupModel, h2, h3]
      · rw [if_neg h1]
        by_cases h2 : a = n2
        · subst h2
          have h3 : ¬ a = name := h1
          simp [lookupModel, h3]
        · simp [lookupModel, h2, ih]

theorem applyRecord_char (agg : ProjectAggregate) (r : ProjectRecord) (p name : String) :
    sumDailyActivity (applyRecord agg r)
        = sumDailyActivity agg
          + (if (parseRFC3339Nano r.timestamp).isSome then 1 else 0)
    ∧ lookupProjMsg (applyRecord agg r).projectStats p
        = lookupProjMsg agg.projectStats p
          + (if (parseRFC3339Nano r.timestamp).isSome && (projectNameOf r == p) then 1 else 0)
    ∧ lookupModel (applyRecord agg r).modelUsage name
        = ((lookupModel agg.modelUsage name).1 + (if modelContributes name r then 1 else 0),
           (lookupModel agg.modelUsage name).2 + modelTokensOf name r) := by
  unfold applyRecord modelContributes modelTokensOf projectNameOf
  obtain hx | ⟨ts, hx⟩ := (parseRFC3339Nano r.timestamp).eq_none_or_eq_some
  · simp [hx]
  · simp only [hx, Option.isSome_some, Bool.true_and, if_true]
    cases hm : r.message with
    | none =>
        refine ⟨?_, ?_, ?_⟩
        · show sumCounts (bump agg.dailyActivity ts.dateKey 1) = _
          simp [sumDailyActivity, sumCounts_bump]
        · show lookupProjMsg (bumpProject agg.projectStats _) p = _
          rw [lookupProjMsg_bumpProject]
          by_cases hp : (if r.cwd = "" then "Unknown" else r.cwd) = p
          · simp [hp]
          · have hne : ¬ ((if r.cwd = "" then "Unknown" else r.cwd) == p) = true := by
              simp [hp]
            have hp2 : ¬ p = (if r.cwd = "" then "Unknown" else r.cwd) :=
              fun hh => hp hh.symm
            simp [hp, hne, hp2]
        · simp
    | some msg =>
        by_cases he : msg.model = ""
        · have hne : ¬ msg.model ≠ "" := by simp [he]
          simp only [if_neg hne]
          refine ⟨?_, ?_, ?_⟩
          · show sumCounts (bump agg.dailyActivity ts.dateKey 1) = _
            simp [sumDailyActivity, sumCounts_bump]
          · show lookupProjMsg (bumpProject agg.projectStats _) p = _
            rw [lookupProjMsg_bumpProject]
            by_cases hp : (if r.cwd = "" then "Unknown" else r.cwd) = p
            · simp [hp]
            · have hne2 : ¬ ((if r.cwd = "" then "Unknown" else r.cwd) == p) = true := by
                simp [hp]
              have hp2 : ¬ p = (if r.cwd = "" then "Unknown" else r.cwd) :=
                fun hh => hp hh.symm
              simp [hp, hne2, hp2]
          · simp [he]
        · have hne : msg.model ≠ "" := he
          simp only [if_pos hne]
          refine ⟨?_, ?_, ?_⟩
          · show sumCounts (bump agg.dailyActivity ts.dateKey 1) = _
            simp [sumDailyActivity, sumCounts_bump]
          · show lookupProjMsg (bumpProject agg.projectStats _) p = _
            rw [lookupProjMsg_bumpProject]
            by_cases hp : (if r.cwd = "" then "Unknown" else r.cwd) = p
            · simp [hp]
            · have hne2 : ¬ ((if r.cwd = "" then "Unknown" else r.cwd) == p) = true := by
                simp [hp]
              have hp2 : ¬ p = (if r.cwd = "" then "Unknown" else r.cwd) :=
                fun hh => hp hh.symm
              simp [hp, hne2, hp2]
          · show lookupModel (bumpModel agg.modelUsage msg.model _) name = _
            rw [lookupModel_bumpModel]
            by_cases hn : msg.model = name
            · subst hn
              simp [he]
            · have h4 : ¬ name = msg.model := fun hh => hn hh.symm
              simp [he, hn, h4]

theorem applyFold_char (p name : String) (rs : List ProjectRecord) (agg : ProjectAggregate) :
    sumDailyActivity (rs.foldl applyRecord agg)
        = sumDailyActivity agg
          + rs.countP (fun r => (parseRFC3339Nano r.timestamp).isSome)
    ∧ lookupProjMsg (rs.foldl applyRecord agg).projectStats p
        = lookupProjMsg agg.projectStats p
          + rs.countP (fun r => (parseRFC3339Nano r.timestamp).isSome && (projectNameOf r == p))
    ∧ lookupModel (rs.foldl applyRecord agg).modelUsage name
        = ((lookupModel agg.modelUsage name).1 + rs.countP (modelContributes name),
           (lookupModel agg.modelUsage name).2 + (rs.map (modelTokensOf name)).sum) := by
  induction rs generalizing agg with
  | nil => simp
  | cons r t ih =>
      have h1 : (r :: t).foldl applyRecord agg = t.foldl applyRecord (applyRecord agg r) := rfl
      obtain ⟨c1, c2, c3⟩ := applyRecord_char agg r p name
      obtain ⟨i1, i2, i3⟩ := ih (applyRecord agg r)
      refine ⟨?_, ?_, ?_⟩
      · rw [h1, i1, c1, List.countP_cons]
        omega
      · rw [h1, i2, c2, List.countP_cons]
        omega
      · rw [h1, i3, c3, List.countP_cons, List.map_cons, List.sum_cons]
        simp only [Prod.mk.injEq]
        constructor <;> omega

theorem parseProjectsSeq_eq_flatten (tf : TimeFilter)
    (files : List (List (Option ProjectRecord))) :
    parseProjectsSeq tf files = parseProjectFileAggregate tf files.flatten initAggregate := by
  have aux : ∀ (fs : List (List (Option ProjectRecord))) (agg : ProjectAggregate),
      fs.foldl (fun a f => parseProjectFileAggregate tf f a) agg
        = parseProjectFileAggregate tf fs.flatten agg := by
    intro fs
    induction fs with
    | nil => intro agg; rfl
    | cons f t ih =>
        intro agg
        show t.foldl _ (parseProjectFileAggregate tf f agg) = _
        rw [ih]
        show _ = parseProjectFileAggregate tf (f ++ t.flatten) agg
        unfold parseProjectFileAggregate
        rw [List.foldl_append]
  exact aux files initAggregate

/-- C8: for every fixed corpus and filter, the batch fan-out of
ParseHistoryConcurrent — any partition of the filtered records into batches,
any worker count, local accumulation and a per-worker merge — yields the
same per-key command and hour counts as a single-worker sequential pass;
and the per-record-interleaved project aggregation yields the same total
message count, per-project message counts and per-model request and token
sums for every interleaving of the files' records. -/
theorem aggregation_partition_invariant (tf : TimeFilter)
    (bs : List (List HistoryRecord)) (rs : List HistoryRecord)
    (files : List (List (Option ProjectRecord))) (seq : List (Option ProjectRecord))
    (k p name : String)
    (hb : bs.flatten.Perm rs) (hf : seq.Perm files.flatten) :
    lookupD (mergeAll (workerResults bs)).cmdCounts k
        = lookupD (processHistoryRecords stInit rs).cmdCounts k
    ∧ lookupD (mergeAll (workerResults bs)).hourlyCounts k
        = lookupD (processHistoryRecords stInit rs).hourlyCounts k
    ∧ sumDailyActivity (parseProjectFileAggregate tf seq initAggregate)
        = sumDailyActivity (parseProjectsSeq tf files)
    ∧ lookupProjMsg (parseProjectFileAggregate tf seq initAggregate).projectStats p
        = lookupProjMsg (parseProjectsSeq tf files).projectStats p
    ∧ lookupModel (parseProjectFileAggregate tf seq initAggregate).modelUsage name
        = lookupModel (parseProjectsSeq tf files).modelUsage name := by
  have hbatch : ∀ (b : List HistoryRecord),
      (sumVals (processHistoryRecords stInit b).cmdCounts k
        = b.countP (fun r => contributesCmd k r))
      ∧ (sumVals (processHistoryRecords stInit b).hourlyCounts k
        = b.countP (fun r => hourKeyOf r == k)) := by
    intro b
    have h := processHistory_char sumVals (fun m k d k2 => sumVals_bump m k k2 d) b stInit k
    constructor
    · have := h.1
      simpa [stInit, sumVals] using this
    · have := h.2
      simpa [stInit, sumVals] using this
  have hseq := processHistory_char lookupD (fun m k d k2 => lookupD_bump m k k2 d) rs stInit k
  have hseq1 : lookupD (processHistoryRecords stInit rs).cmdCounts k
      = rs.countP (fun r => contributesCmd k r) := by
    have := hseq.1
    simpa [stInit, lookupD] using this
  have hseq2 : lookupD (processHistoryRecords stInit rs).hourlyCounts k
      = rs.countP (fun r => hourKeyOf r == k) := by
    have := hseq.2
    simpa [stInit, lookupD] using this
  have hmap1 : (workerResults bs).map (fun l => sumVals l.cmdCounts k)
      = bs.map (fun b => b.countP (fun r => contributesCmd k r)) := by
    unfold workerResults
    rw [List.map_map]
    exact List.map_congr_left (fun b _ => (hbatch b).1)
  have hmap2 : (workerResults bs).map (fun l => sumVals l.hourlyCounts k)
      = bs.map (fun b => b.countP (fun r => hourKeyOf r == k)) := by
    unfold workerResults
    rw [List.map_map]
    exact List.map_congr_left (fun b _ => (hbatch b).2)
  have hperm : (countedRecords tf seq).Perm (countedRecords tf files.flatten) :=
    (hf.filterMap id).filter (countedRecord tf)
  have hA := applyFold_char p name (countedRecords tf seq) initAggregate
  have hB := applyFold_char p name (countedRecords tf files.flatten) initAggregate
  refine ⟨?_, ?_, ?_, ?_, ?_⟩
  · rw [(lookupD_mergeAll (workerResults bs) k).1, hmap1, hseq1,
        ← List.countP_flatten, hb.countP_eq]
  · rw [(lookupD_mergeAll (workerResults bs) k).2, hmap2, hseq2,
        ← List.countP_flatten, hb.countP_eq]
  · rw [parseProjectsSeq_eq_flatten, parseProjectFileAggregate_eq_counted,
        parseProjectFileAggregate_eq_counted, hA.1, hB.1, hperm.countP_eq]
  · rw [parseProjectsSeq_eq_flatten, parseProjectFileAggregate_eq_counted,
        parseProjectFileAggregate_eq_counted, hA.2.1, hB.2.1, hperm.countP_eq]
  · rw [parseProjectsSeq_eq_flatten, parseProjectFileAggregate_eq_counted,
        parseProjectFileAggregate_eq_counted, hA.2.2, hB.2.2, hperm.countP_eq,
        (hperm.map (modelTokensOf name)).sum_eq]

/-- Witness for C8 at a concrete two-batch partition, a reversed sequential
order and a concrete per-file interleaving. -/
theorem aggregation_partition_invariant_witness :
    c8HistBatches.flatten.Perm c8HistSeq
    ∧ c8ProjSeq.Perm c8ProjFiles.flatten
    ∧ (lookupD (mergeAll (workerResults c8HistBatches)).cmdCounts "/help"
        = lookupD (processHistoryRecords stInit c8HistSeq).cmdCounts "/help"
      ∧ lookupD (mergeAll (workerResults c8HistBatches)).hourlyCounts "/help"
        = lookupD (processHistoryRecords stInit c8HistSeq).hourlyCounts "/help"
      ∧ sumDailyActivity (parseProjectFileAggregate { start := none, end_ := none }
            c8ProjSeq initAggregate)
        = sumDailyActivity (parseProjectsSeq { start := none, end_ := none } c8ProjFiles)
      ∧ lookupProjMsg (parseProjectFileAggregate { start := none, end_ := none }
            c8ProjSeq initAggregate).projectStats "p1"
        = lookupProjMsg (parseProjectsSeq { start := none, end_ := none }
            c8ProjFiles).projectStats "p1"
      ∧ lookupModel (parseProjectFileAggregate { start := none, end_ := none }
            c8ProjSeq initAggregate).modelUsage "m"
        = lookupModel (parseProjectsSeq { start := none, end_ := none }
            c8ProjFiles).modelUsage "m") :=
  ⟨by decide, by decide,
   aggregation_partition_invariant { start := none, end_ := none }
     c8HistBatches c8HistSeq c8ProjFiles c8ProjSeq "/help" "p1" "m"
     (by decide) (by decide)⟩

end CCInsights
